import Mathlib

/-!
Verification development for the truth-teller / liar logic-puzzle generator.

The JavaScript sources (`utility.js`, `statement.js`, `script.js`) are embedded
shallowly:

* JS numbers used as bit vectors are modelled as `Nat`, with explicit
  `% 2 ^ 32` truncation exactly where the JS 32-bit bitwise semantics makes it
  observable (`popcount`, `~a` inside `TypeCountStatement.isTrueOn`).
* `Math.random()` draws are modelled by an explicit oracle `List Nat`; a draw
  `Math.floor(Math.random() * k)` becomes `headD 0 % k`, which ranges over
  exactly the outcomes `[0, k)` the source can produce.
* The unbounded rejection loops are modelled with an explicit fuel parameter;
  `none` means "fuel exhausted", which is a modelling artifact and distinct
  from the thrown configuration error, modelled as `Except.error ()`.
* The class hierarchy rooted at `LogicalStatement` becomes one inductive type;
  the purely structural combinators (`BasicLogicalNotStatement`,
  `BasicLogicalOrStatement`, `BasicLogicalAndStatement`) are separate
  constructors from the generated variants, as in the source.
-/

set_option maxRecDepth 8000

/-! ## utility.js -/

/-- `popcount` from `utility.js`: the SWAR 32-bit population count.  Faithful
to the source for inputs in `[0, 2^32)` (every call site in the modelled code
passes such a value); JS `>>>`, `&` and the final `* 0x01010101 >>> 24` are
rendered with `Nat` operations plus the `% 2 ^ 32` truncation the JS
`ToUint32` performs on the product. -/
def popcount (x : Nat) : Nat :=
  let x1 := x - ((x &&& 0xAAAAAAAA) >>> 1)
  let x2 := (x1 &&& 0x33333333) + ((x1 &&& 0xCCCCCCCC) >>> 2)
  let x3 := (x2 + (x2 >>> 4)) &&& 0x0F0F0F0F
  ((x3 * 0x01010101) % 2 ^ 32) >>> 24

/-- Helper for `hasDuplicate`: the loop with its set of previously seen
elements (`previousElements` in the source). -/
def hasDuplicateAux : List Nat → List Nat → Bool
  | _, [] => false
  | previousElements, element :: rest =>
    if previousElements.contains element then true
    else hasDuplicateAux (element :: previousElements) rest

/-- `hasDuplicate` from `utility.js`: whether the array contains a repeated
element. -/
def hasDuplicate (array : List Nat) : Bool :=
  hasDuplicateAux [] array

/-- Naive bit-by-bit population count over 32 bits (the reference function the
spec's *Popcount correctness* property compares against): peel one bit per
step. -/
def bitCountAux : Nat → Nat → Nat
  | 0, _ => 0
  | fuel+1, x => x % 2 + bitCountAux fuel (x / 2)

/-- Naive 32-bit popcount. -/
def naivePopcount (x : Nat) : Nat := bitCountAux 32 x

/-! ## statement.js: LogicalStatementContext -/

/-- `LogicalStatementContext`: the situation a statement is uttered in.
`preconditionPredicate` is `null` or a boolean in the source, hence
`Option Bool`; `complexityFactor` is a positive number used only to weight the
generator's class selection, carried here as `ℚ`. -/
structure LogicalStatementContext where
  personCount : Nat
  speakerIndex : Nat
  isRoot : Bool
  shouldUseGa : Bool
  preconditionPredicate : Option Bool := none
  complexityFactor : ℚ := 1
deriving Repr, DecidableEq

instance : Inhabited LogicalStatementContext :=
  ⟨⟨1, 0, true, false, none, 1⟩⟩

/-- `LogicalStatementContext.from`: copy every field into a fresh context
(`from` is a Lean keyword, hence the prime).  In the source the copy is then
mutated locally; here those mutations are functional updates on the copy, so
the caller's context is untouched by construction. -/
def LogicalStatementContext.from' (other : LogicalStatementContext) : LogicalStatementContext :=
  { personCount := other.personCount
    speakerIndex := other.speakerIndex
    isRoot := other.isRoot
    shouldUseGa := other.shouldUseGa
    preconditionPredicate := other.preconditionPredicate
    complexityFactor := other.complexityFactor }

/-- `particle()`: which Japanese particle to use. -/
def LogicalStatementContext.particle (c : LogicalStatementContext) : String :=
  if c.shouldUseGa then "が" else "は"

/-! ## statement.js: the statement tree -/

/-- The statement algebra.  `trueFalse` is `TrueFalseStatement`, `typeCount`
is `TypeCountStatement`, `logicalAnd`/`logicalOr`/`logicalIf` are the
generated compound classes, and `basicNot`/`basicOr`/`basicAnd` are the
internal `Basic…` combinators used by `implies`/`isTautology` (they carry no
`sentence`/`subjectBitsArray` implementation in the source). -/
inductive LogicalStatement where
  | trueFalse (context : LogicalStatementContext) (subjectIndex : Nat) (isTruthTeller : Bool)
  | typeCount (context : LogicalStatementContext) (subjectBits : Nat) (liarCountBits : Nat)
  | basicNot (substatement : LogicalStatement)
  | basicOr (context : LogicalStatementContext) (substatement1 substatement2 : LogicalStatement)
  | basicAnd (context : LogicalStatementContext) (substatement1 substatement2 : LogicalStatement)
  | logicalAnd (context : LogicalStatementContext) (substatement1 substatement2 : LogicalStatement)
  | logicalOr (context : LogicalStatementContext) (substatement1 substatement2 : LogicalStatement)
  | logicalIf (context : LogicalStatementContext) (antecedent consequent : LogicalStatement)
deriving Repr, DecidableEq

/-- The `context` property.  `BasicLogicalNotStatement`'s constructor calls
`super(substatement.context)`. -/
def LogicalStatement.context : LogicalStatement → LogicalStatementContext
  | .trueFalse c _ _ => c
  | .typeCount c _ _ => c
  | .basicNot s => s.context
  | .basicOr c _ _ => c
  | .basicAnd c _ _ => c
  | .logicalAnd c _ _ => c
  | .logicalOr c _ _ => c
  | .logicalIf c _ _ => c

/-- JS `subjectBits & ~peopleTypeBits` (both operands pass through `ToInt32`;
the resulting bit pattern is the 32-bit AND-NOT). -/
def jsAndNot (x a : Nat) : Nat :=
  (x % 2 ^ 32) &&& ((a % 2 ^ 32) ^^^ 0xFFFFFFFF)

/-- `isTrueOn`: whether the statement is true on the given truth-teller/liar
assignment (bit `i` set ⇔ person `i` is a truth-teller). -/
def LogicalStatement.isTrueOn : LogicalStatement → Nat → Bool
  | .trueFalse _ subjectIndex isTruthTeller, peopleTypeBits =>
    (((peopleTypeBits >>> subjectIndex) &&& 1) != 0) == isTruthTeller
  | .typeCount _ subjectBits liarCountBits, peopleTypeBits =>
    let liarCount := popcount (jsAndNot subjectBits peopleTypeBits)
    ((liarCountBits >>> liarCount) &&& 1) != 0
  | .basicNot substatement, peopleTypeBits => ! substatement.isTrueOn peopleTypeBits
  | .basicOr _ s1 s2, peopleTypeBits => s1.isTrueOn peopleTypeBits || s2.isTrueOn peopleTypeBits
  | .basicAnd _ s1 s2, peopleTypeBits => s1.isTrueOn peopleTypeBits && s2.isTrueOn peopleTypeBits
  | .logicalAnd _ s1 s2, peopleTypeBits => s1.isTrueOn peopleTypeBits && s2.isTrueOn peopleTypeBits
  | .logicalOr _ s1 s2, peopleTypeBits => s1.isTrueOn peopleTypeBits || s2.isTrueOn peopleTypeBits
  | .logicalIf _ antecedent consequent, peopleTypeBits =>
    ! antecedent.isTrueOn peopleTypeBits || consequent.isTrueOn peopleTypeBits

/-- `isConsistentOn`: the statement, as an utterance of its speaker, is
coherent on the assignment. -/
def LogicalStatement.isConsistentOn (s : LogicalStatement) (peopleTypeBits : Nat) : Bool :=
  let speakerBit := (peopleTypeBits >>> s.context.speakerIndex) &&& 1
  s.isTrueOn peopleTypeBits == (speakerBit != 0)

/-- `isTautology`: true on every assignment in `[0, 2^personCount)`. -/
def LogicalStatement.isTautology (s : LogicalStatement) : Bool :=
  (List.range (2 ^ s.context.personCount)).all (fun peopleTypeBits => s.isTrueOn peopleTypeBits)

/-- `implies`: `¬self ∨ other` is a tautology. -/
def LogicalStatement.implies (s anotherStatement : LogicalStatement) : Bool :=
  (LogicalStatement.basicOr s.context (LogicalStatement.basicNot s) anotherStatement).isTautology

/-- `predicate()`: only `TrueFalseStatement` overrides the base `null`. -/
def LogicalStatement.predicate : LogicalStatement → Option Bool
  | .trueFalse _ _ isTruthTeller => some isTruthTeller
  | _ => none

/-- `subjectBitsArray()`: the subject bit patterns of the atomic parts.  The
`Basic…` combinators do not implement it in the source (calling it there
throws); they are never reached on generated statements, and are given `[]`
here. -/
def LogicalStatement.subjectBitsArray : LogicalStatement → List Nat
  | .trueFalse _ subjectIndex _ => [1 <<< subjectIndex]
  | .typeCount _ subjectBits _ => [subjectBits]
  | .basicNot _ => []
  | .basicOr _ _ _ => []
  | .basicAnd _ _ _ => []
  | .logicalAnd _ s1 s2 => s1.subjectBitsArray ++ s2.subjectBitsArray
  | .logicalOr _ s1 s2 => s1.subjectBitsArray ++ s2.subjectBitsArray
  | .logicalIf _ antecedent consequent =>
    antecedent.subjectBitsArray ++ consequent.subjectBitsArray

/-- The `nestingLayer` of the variant a statement's root node belongs to
(the base class default is 0, inherited by the `Basic…` combinators). -/
def LogicalStatement.rootNestingLayer : LogicalStatement → Int
  | .trueFalse _ _ _ => 0
  | .typeCount _ _ _ => 0
  | .basicNot _ => 0
  | .basicOr _ _ _ => 0
  | .basicAnd _ _ _ => 0
  | .logicalAnd _ _ _ => 1
  | .logicalOr _ _ _ => 1
  | .logicalIf _ _ _ => 2

/-! ## statement.js: sentence rendering -/

/-- `personNameFromIndex`: `String.fromCharCode(65 + i) + 'さん'`. -/
def LogicalStatement.personNameFromIndex (personIndex : Nat) : String :=
  String.singleton (Char.ofNat (65 + personIndex)) ++ "さん"

/-- `personTypeStringFromBool`. -/
def LogicalStatement.personTypeStringFromBool (isTruthTeller : Bool) : String :=
  if isTruthTeller then "正直者" else "嘘つき"

/-- `TypeCountStatement.sentence()`'s liar-count phrase and subject phrase,
assembled exactly as in the source.  All string lengths agree with JS
`String.prototype.length` because every character involved is a single
UTF-16 code unit. -/
def typeCountSentence (context : LogicalStatementContext) (subjectBits liarCountBits : Nat) :
    String :=
  let personCount := context.personCount
  let speakerIndex := context.speakerIndex
  let subjectCount := popcount subjectBits
  let subjectPart : String :=
    if subjectBits = (1 <<< personCount) - 1 then
      "この" ++ toString personCount ++ "人"
    else
      let meAnd : String := if subjectBits &&& (1 <<< speakerIndex) != 0 then "私と" else ""
      let subjectIndicesExceptSpeaker :=
        (List.range personCount).filter
          (fun i => i ≠ speakerIndex ∧ subjectBits &&& (1 <<< i) ≠ 0)
      meAnd ++ String.intercalate (if subjectCount = 2 then "と" else "、")
        (subjectIndicesExceptSpeaker.map (fun i => LogicalStatement.personNameFromIndex i))
  let liarPart : String :=
    if liarCountBits = 1 ∨ liarCountBits = 1 <<< subjectCount then
      (if subjectCount = personCount then
        context.particle ++ "全員"
      else
        "の" ++ toString subjectCount ++ "人とも") ++
      LogicalStatement.personTypeStringFromBool (liarCountBits = 1)
    else
      let liarCountBitsFlipped :=
        ((liarCountBits % 2 ^ 32) ^^^ 0xFFFFFFFF) &&& ((1 <<< (subjectCount + 1)) - 1)
      "のうち、嘘つきの人数" ++ context.particle ++
      (if liarCountBits &&& (liarCountBits + 1) = 0 then
        toString ((popcount liarCountBits : Int) - 1) ++ "人以下"
      else if liarCountBitsFlipped &&& (liarCountBitsFlipped + 1) = 0 then
        toString (popcount liarCountBitsFlipped) ++ "人以上"
      else
        String.intercalate "か"
          (((List.range (subjectCount + 1)).filter
            (fun i => liarCountBits &&& (1 <<< i) ≠ 0)).map
            (fun i => toString i ++ "人")))
  subjectPart ++ liarPart ++ (if context.isRoot then "です。" else "")

/-- `sentence()` for each statement variant.  The `Basic…` combinators do not
implement it in the source (calling it there throws); they are never rendered
and are given `""` here. -/
def LogicalStatement.sentence : LogicalStatement → String
  | .trueFalse context subjectIndex isTruthTeller =>
    (if subjectIndex = context.speakerIndex then "私"
     else LogicalStatement.personNameFromIndex subjectIndex) ++
    (if context.preconditionPredicate = some isTruthTeller then "も" else context.particle) ++
    LogicalStatement.personTypeStringFromBool isTruthTeller ++
    (if context.isRoot then "です。" else "")
  | .typeCount context subjectBits liarCountBits =>
    typeCountSentence context subjectBits liarCountBits
  | .basicNot _ => ""
  | .basicOr _ _ _ => ""
  | .basicAnd _ _ _ => ""
  | .logicalAnd context s1 s2 =>
    s1.sentence ++ "で、" ++ s2.sentence ++ (if context.isRoot then "です。" else "")
  | .logicalOr context s1 s2 =>
    s1.sentence ++ "か、または" ++ s2.sentence ++ (if context.isRoot then "です。" else "")
  | .logicalIf context antecedent consequent =>
    "もし、" ++ antecedent.sentence ++ "ならば、" ++ consequent.sentence ++
    (if context.isRoot then "です。" else "")

/-! ## statement.js: the generator

`LogicalStatementGenerator.randomStatement` and the `random` constructors of
`LogicalAndStatement`, `LogicalOrStatement` and `LogicalIfStatement` are four
mutually recursive rejection-sampling loops.  They are embedded as one
fuel-indexed function `genRun` whose `GenCall` argument selects which of the
four procedures is running; every recursive call (a retry of the same loop or
a delegation to another of the four) consumes one unit of fuel, so the
recursion is structural and the function evaluates by `rfl`/`decide`. -/

/-- The registered `LogicalStatement` subclasses, in registration order
(`addStatementClasses(TrueFalseStatement, TypeCountStatement,
LogicalAndStatement, LogicalOrStatement, LogicalIfStatement)`). -/
inductive StatementClass where
  | trueFalse
  | typeCount
  | logicalAnd
  | logicalOr
  | logicalIf
deriving Repr, DecidableEq

/-- Each class's static `nestingLayer` (an `Int`, since the JS comparison
`nestingLayer <= maxLayer` is over arbitrary numbers). -/
def StatementClass.nestingLayer : StatementClass → Int
  | .trueFalse => 0
  | .typeCount => 0
  | .logicalAnd => 1
  | .logicalOr => 1
  | .logicalIf => 2

/-- The generator's registry `#childStatementClasses` after load time. -/
def childStatementClasses : List StatementClass :=
  [.trueFalse, .typeCount, .logicalAnd, .logicalOr, .logicalIf]

/-- The `classChoices` filter at the head of `randomStatement`: the registered
classes whose `nestingLayer` is at most `maxLayer` (`⊤` models the JS default
`Infinity`). -/
def eligibleClasses (maxLayer : WithTop Int) : List StatementClass :=
  childStatementClasses.filter (fun c => decide ((c.nestingLayer : WithTop Int) ≤ maxLayer))

/-- One `Math.floor(Math.random() * k)` draw from the oracle: the head of the
oracle list reduced mod `k`, which ranges over exactly `[0, k)`. -/
def randBelow (o : List Nat) (k : Nat) : Nat × List Nat :=
  (o.headD 0 % k, o.tail)

/-- One `Math.random() < 0.5` draw from the oracle. -/
def randBool' (o : List Nat) : Bool × List Nat :=
  (o.headD 0 % 2 == 0, o.tail)

/-- `TrueFalseStatement.random`: a uniform subject index and a uniform
asserted type. -/
def TrueFalseStatement.random (context : LogicalStatementContext) (o : List Nat) :
    LogicalStatement × List Nat :=
  let p1 := randBelow o context.personCount
  let p2 := randBool' p1.2
  (LogicalStatement.trueFalse context p1.1 p2.1, p2.2)

/-- `TypeCountStatement.random`: redraw `subjectBits` until its popcount is at
least 2 (the do–while loop, fuel-bounded here), then draw `liarCountBits`
uniformly from `[1, 2^(subjectCount+1) - 2]`. -/
def TypeCountStatement.random (context : LogicalStatementContext) :
    Nat → List Nat → Option (LogicalStatement × List Nat)
  | 0, _ => none
  | fuel+1, o =>
    let p := randBelow o (1 <<< context.personCount)
    if popcount p.1 ≤ 1 then
      TypeCountStatement.random context fuel p.2
    else
      let subjectCount := popcount p.1
      let q := randBelow p.2 ((1 <<< (subjectCount + 1)) - 2)
      some (LogicalStatement.typeCount context p.1 (q.1 + 1), q.2)

/-- Which of the four mutually recursive generator procedures is running:
`gen maxLayer` is `LogicalStatementGenerator.randomStatement(context,
maxLayer)`, the other three are the compound classes' `random`. -/
inductive GenCall where
  | gen (maxLayer : WithTop Int)
  | andRandom
  | orRandom
  | ifRandom
deriving Repr, DecidableEq

/-- A generator result: `none` = fuel exhausted (modelling artifact),
`some (Except.error ())` = the thrown "no eligible class" configuration error,
`some (Except.ok (s, o))` = statement produced, rest of the oracle `o`. -/
abbrev GenResult := Option (Except Unit (LogicalStatement × List Nat))

/-- The substatement context built by `LogicalAndStatement.random` for its
first substatement: a copy of the caller's context with `isRoot` cleared. -/
def andSubstatementContext1 (context : LogicalStatementContext) : LogicalStatementContext :=
  { LogicalStatementContext.from' context with isRoot := false }

/-- The substatement context built by `LogicalAndStatement.random` for its
second substatement: a copy of the first with the first substatement's
`predicate()` as precondition. -/
def andSubstatementContext2 (context : LogicalStatementContext) (p : Option Bool) :
    LogicalStatementContext :=
  { LogicalStatementContext.from' (andSubstatementContext1 context) with
    preconditionPredicate := p }

/-- The substatement context built by `LogicalOrStatement.random`, shared by
both substatements. -/
def orSubstatementContext (context : LogicalStatementContext) : LogicalStatementContext :=
  { LogicalStatementContext.from' context with
    isRoot := false, shouldUseGa := true, preconditionPredicate := none }

/-- The antecedent context built by `LogicalIfStatement.random`. -/
def ifAntecedentContext (context : LogicalStatementContext) : LogicalStatementContext :=
  { LogicalStatementContext.from' context with isRoot := false, shouldUseGa := true }

/-- The consequent context built by `LogicalIfStatement.random`. -/
def ifConsequentContext (context : LogicalStatementContext) (p : Option Bool) :
    LogicalStatementContext :=
  { LogicalStatementContext.from' (ifAntecedentContext context) with
    shouldUseGa := context.shouldUseGa, preconditionPredicate := p }

/-- The four generator procedures of `statement.js`.

* `gen maxLayer`: filter the registry, throw if nothing is eligible, pick a
  class (the weighted cumulative-sum draw is modelled by an oracle index —
  every weight `complexityFactor ^ nestingLayer` is positive, so exactly the
  indices `[0, classChoices.length)` are reachable), run that class's
  `random`, and retry on a duplicated subject bit pattern.
* `andRandom` / `orRandom` / `ifRandom`: build the two substatement contexts
  as `LogicalStatementContext.from` copies with the local mutations of the
  source, generate the substatements through `gen`, and retry while the
  rejection predicate of the source holds. -/
def genRun : Nat → GenCall → LogicalStatementContext → List Nat → GenResult
  | 0, _, _, _ => none
  | fuel+1, GenCall.gen maxLayer, context, o =>
    let classChoices := eligibleClasses maxLayer
    if classChoices.length = 0 then
      some (Except.error ())
    else
      let p := randBelow o classChoices.length
      let candidate : GenResult :=
        match classChoices.getD p.1 StatementClass.trueFalse with
        | StatementClass.trueFalse => some (Except.ok (TrueFalseStatement.random context p.2))
        | StatementClass.typeCount =>
          (TypeCountStatement.random context fuel p.2).map Except.ok
        | StatementClass.logicalAnd => genRun fuel GenCall.andRandom context p.2
        | StatementClass.logicalOr => genRun fuel GenCall.orRandom context p.2
        | StatementClass.logicalIf => genRun fuel GenCall.ifRandom context p.2
      match candidate with
      | none => none
      | some (Except.error e) => some (Except.error e)
      | some (Except.ok sp) =>
        if hasDuplicate sp.1.subjectBitsArray then
          genRun fuel (GenCall.gen maxLayer) context sp.2
        else
          some (Except.ok sp)
  | fuel+1, GenCall.andRandom, context, o =>
    let substatementContext1 := andSubstatementContext1 context
    match genRun fuel (GenCall.gen 0) substatementContext1 o with
    | none => none
    | some (Except.error e) => some (Except.error e)
    | some (Except.ok s1p) =>
      let substatementContext2 := andSubstatementContext2 context s1p.1.predicate
      match genRun fuel (GenCall.gen 0) substatementContext2 s1p.2 with
      | none => none
      | some (Except.error e) => some (Except.error e)
      | some (Except.ok s2p) =>
        let newStatement := LogicalStatement.logicalAnd context s1p.1 s2p.1
        if s1p.1.implies newStatement || s2p.1.implies newStatement ||
            (LogicalStatement.basicNot newStatement).isTautology then
          genRun fuel GenCall.andRandom context s2p.2
        else
          some (Except.ok (newStatement, s2p.2))
  | fuel+1, GenCall.orRandom, context, o =>
    let substatementContext := orSubstatementContext context
    match genRun fuel (GenCall.gen 0) substatementContext o with
    | none => none
    | some (Except.error e) => some (Except.error e)
    | some (Except.ok s1p) =>
      match genRun fuel (GenCall.gen 0) substatementContext s1p.2 with
      | none => none
      | some (Except.error e) => some (Except.error e)
      | some (Except.ok s2p) =>
        let newStatement := LogicalStatement.logicalOr context s1p.1 s2p.1
        if newStatement.implies s1p.1 || newStatement.implies s2p.1 ||
            newStatement.isTautology then
          genRun fuel GenCall.orRandom context s2p.2
        else
          some (Except.ok (newStatement, s2p.2))
  | fuel+1, GenCall.ifRandom, context, o =>
    let antecedentContext := ifAntecedentContext context
    match genRun fuel (GenCall.gen 1) antecedentContext o with
    | none => none
    | some (Except.error e) => some (Except.error e)
    | some (Except.ok s1p) =>
      let consequentContext := ifConsequentContext context s1p.1.predicate
      match genRun fuel (GenCall.gen 1) consequentContext s1p.2 with
      | none => none
      | some (Except.error e) => some (Except.error e)
      | some (Except.ok s2p) =>
        let newStatement := LogicalStatement.logicalIf context s1p.1 s2p.1
        if newStatement.implies (LogicalStatement.basicNot s1p.1) ||
            newStatement.implies s2p.1 || newStatement.isTautology then
          genRun fuel GenCall.ifRandom context s2p.2
        else
          some (Except.ok (newStatement, s2p.2))

/-- `LogicalStatementGenerator.randomStatement(context, maxLayer)`. -/
def LogicalStatementGenerator.randomStatement (fuel : Nat) (context : LogicalStatementContext)
    (maxLayer : WithTop Int) (o : List Nat) : GenResult :=
  genRun fuel (GenCall.gen maxLayer) context o

/-- `LogicalAndStatement.random(context)`. -/
def LogicalAndStatement.random (fuel : Nat) (context : LogicalStatementContext)
    (o : List Nat) : GenResult :=
  genRun fuel GenCall.andRandom context o

/-- `LogicalOrStatement.random(context)`. -/
def LogicalOrStatement.random (fuel : Nat) (context : LogicalStatementContext)
    (o : List Nat) : GenResult :=
  genRun fuel GenCall.orRandom context o

/-- `LogicalIfStatement.random(context)`. -/
def LogicalIfStatement.random (fuel : Nat) (context : LogicalStatementContext)
    (o : List Nat) : GenResult :=
  genRun fuel GenCall.ifRandom context o

/-! ## script.js: solver -/

/-- `solutionsTo(statements)`: every assignment in `[0, 2^N)` (`N` the number
of statements) on which all statements are consistent with their speakers.
The source's early-exit inner loop over `i` is `List.all`. -/
def solutionsTo (statements : List LogicalStatement) : List Nat :=
  let personCount := statements.length
  (List.range (2 ^ personCount)).filter
    (fun peopleTypeBits => statements.all (fun s => s.isConsistentOn peopleTypeBits))

/-! ## script.js: length band -/

/-- `interpolatedSentenceLength(personCount, t)`: the target total sentence
length, an exponential interpolation between `11 * personCount` and
`100 * (personCount - 1)`.  JS floating-point arithmetic is idealised as real
arithmetic (`Math.pow(2, 2*t)` is `rpow`). -/
noncomputable def interpolatedSentenceLength (personCount : Nat) (t : ℝ) : ℝ :=
  let sentenceLengthRangeStart : ℝ := 11 * personCount
  let sentenceLengthRangeEnd : ℝ := 100 * ((personCount : ℝ) - 1)
  let interpolationParameter : ℝ := ((2 : ℝ) ^ (2 * t) - 1) / 3
  sentenceLengthRangeStart +
    interpolationParameter * (sentenceLengthRangeEnd - sentenceLengthRangeStart)

/-- `minSentenceLength` as computed by the generate handler: the interpolated
length at `sentenceComplexity / 5`, relaxed to `0` at the dial's low end. -/
noncomputable def minSentenceLength (personCount sentenceComplexity : Nat) : ℝ :=
  if sentenceComplexity = 0 then 0
  else interpolatedSentenceLength personCount ((sentenceComplexity : ℝ) / 5)

/-- `maxSentenceLength` as computed by the generate handler: the interpolated
length at `(sentenceComplexity + 1) / 5`, relaxed to `Infinity` (`⊤`) at the
dial's high end. -/
noncomputable def maxSentenceLength (personCount sentenceComplexity : Nat) : WithTop ℝ :=
  if sentenceComplexity = 4 then ⊤
  else ((interpolatedSentenceLength personCount (((sentenceComplexity : ℝ) + 1) / 5) : ℝ) : WithTop ℝ)

/-! ## script.js: assembler loop -/

/-- `sumOfSentenceLengths`: the `for … of` accumulation of the rendered
lengths. -/
def sumOfSentenceLengths (sentences : List String) : Nat :=
  sentences.foldl (fun acc sentence => acc + sentence.length) 0

/-- The acceptance test at the head of the assembler's `while (true)` loop:
exactly one solution, and the total rendered length inside the band.  The
band endpoints are parameters (the handler computes them from
`interpolatedSentenceLength`; they are idealised reals there, and the loop is
stated for an arbitrary rational band with `⊤` for `Infinity`). -/
def assemblerAccepts (minLen : ℚ) (maxLen : WithTop ℚ) (statements : List LogicalStatement)
    (sentences : List String) : Prop :=
  (solutionsTo statements).length = 1 ∧
    minLen ≤ (sumOfSentenceLengths sentences : ℚ) ∧
    ((sumOfSentenceLengths sentences : ℚ) : WithTop ℚ) ≤ maxLen

instance (minLen : ℚ) (maxLen : WithTop ℚ) (statements : List LogicalStatement)
    (sentences : List String) :
    Decidable (assemblerAccepts minLen maxLen statements sentences) := by
  unfold assemblerAccepts; infer_instance

/-- The `while (true)` regeneration loop of the generate handler: break when
`assemblerAccepts` holds; otherwise draw a random speaker index, regenerate
only that speaker's statement via
`LogicalStatementGenerator.randomStatement(statementContexts[i])` (the default
`maxLayer = Infinity` is `⊤`), refresh its rendered sentence, re-solve, and
loop.  `genFuel` bounds each inner generator run, `fuel` bounds the loop;
`none` is fuel exhaustion (the source loops forever) or an inner generator
failure. -/
def assemblerLoop (minLen : ℚ) (maxLen : WithTop ℚ) (statementContexts : List LogicalStatementContext)
    (genFuel : Nat) :
    Nat → List LogicalStatement → List String → List Nat →
    Option (List LogicalStatement × List String)
  | 0, _, _, _ => none
  | fuel+1, statements, sentences, o =>
    if assemblerAccepts minLen maxLen statements sentences then
      some (statements, sentences)
    else
      let p := randBelow o statementContexts.length
      match genRun genFuel (GenCall.gen ⊤) (statementContexts.getD p.1 default) p.2 with
      | some (Except.ok sp) =>
        assemblerLoop minLen maxLen statementContexts genFuel fuel
          (statements.set p.1 sp.1) (sentences.set p.1 sp.1.sentence) sp.2
      | _ => none

/-! ## Popcount correctness (claim C4 machinery)

The SWAR algorithm is proven equal to the naive bit count on `[0, 2^32)` by
splitting the word into four bytes: each of the three in-word steps acts
bytewise (the masks are byte-periodic and no carry crosses a byte boundary),
the byte-level behaviour is checked exhaustively, and the final multiply
accumulates the four byte counts into the top byte. -/

/-- Step 1 of `popcount`: per 2-bit field, `f - f/2` = popcount of the field. -/
def swarStep1 (x : Nat) : Nat := x - ((x &&& 0xAAAAAAAA) >>> 1)
def swarStep2 (x : Nat) : Nat := (x &&& 0x33333333) + ((x &&& 0xCCCCCCCC) >>> 2)
def swarStep3 (x : Nat) : Nat := (x + (x >>> 4)) &&& 0x0F0F0F0F
def swarFinal (x : Nat) : Nat := ((x * 0x01010101) % 2 ^ 32) >>> 24

theorem popcount_eq_steps (x : Nat) :
    popcount x = swarFinal (swarStep3 (swarStep2 (swarStep1 x))) := rfl

theorem testBit_concat (k a b j : Nat) (ha : a < 2 ^ k) :
    (a + 2 ^ k * b).testBit j = if j < k then a.testBit j else b.testBit (j - k) := by
  rcases lt_or_ge j k with h | h
  · simp only [if_pos h, Nat.testBit_to_div_mod]
    have key : (a + 2 ^ k * b) / 2 ^ j % 2 = a / 2 ^ j % 2 := by
      have e1 : 2 ^ k * b = 2 ^ j * (2 ^ (k - j) * b) := by
        rw [← Nat.mul_assoc, ← Nat.pow_add]
        congr 2
        omega
      have e2 : 2 ^ (k - j) * b = 2 * (2 ^ (k - j - 1) * b) := by
        rw [← Nat.mul_assoc, ← Nat.pow_succ']
        congr 2
        omega
      rw [e1, Nat.add_mul_div_left _ _ (Nat.pos_pow_of_pos j (by norm_num)), e2]
      omega
    rw [key]
  · simp only [if_neg (by omega : ¬ j < k), Nat.testBit_to_div_mod]
    have e1 : (a + 2 ^ k * b) / 2 ^ j = b / 2 ^ (j - k) := by
      have e2 : (2 : Nat) ^ j = 2 ^ k * 2 ^ (j - k) := by
        rw [← Nat.pow_add]
        congr 1
        omega
      rw [e2, ← Nat.div_div_eq_div_mul, Nat.add_mul_div_left _ _ (Nat.pos_pow_of_pos k (by norm_num)),
        Nat.div_eq_of_lt ha, Nat.zero_add]
    rw [e1]

theorem concat_land (k a b m : Nat) (ha : a < 2 ^ k) :
    (a + 2 ^ k * b) &&& m = (a &&& m % 2 ^ k) + 2 ^ k * (b &&& m >>> k) := by
  apply Nat.eq_of_testBit_eq
  intro j
  have hlt : a &&& m % 2 ^ k < 2 ^ k :=
    Nat.lt_of_le_of_lt Nat.and_le_right (Nat.mod_lt _ (Nat.pos_pow_of_pos k (by norm_num)))
  rw [Nat.testBit_and, testBit_concat k _ _ _ ha, testBit_concat k _ _ _ hlt]
  rcases lt_or_ge j k with h | h
  · simp [h, Nat.testBit_and, Nat.testBit_mod_two_pow]
  · simp only [if_neg (by omega : ¬ j < k), Nat.testBit_and, Nat.testBit_shiftRight]
    congr 2
    omega

theorem land_small (k x m : Nat) (hx : x < 2 ^ k) : x &&& m = x &&& m % 2 ^ k := by
  apply Nat.eq_of_testBit_eq
  intro j
  rw [Nat.testBit_and, Nat.testBit_and, Nat.testBit_mod_two_pow]
  rcases lt_or_ge j k with h | h
  · simp [h]
  · have : x.testBit j = false :=
      Nat.testBit_eq_false_of_lt (Nat.lt_of_lt_of_le hx (Nat.pow_le_pow_right (by norm_num) h))
    simp [this]

theorem land_mod (x m k : Nat) : (x &&& m) % 2 ^ k = x % 2 ^ k &&& m % 2 ^ k := by
  apply Nat.eq_of_testBit_eq
  intro j
  rw [Nat.testBit_mod_two_pow, Nat.testBit_and, Nat.testBit_and,
    Nat.testBit_mod_two_pow, Nat.testBit_mod_two_pow]
  by_cases h : j < k <;> simp [h]

theorem land_even (x m : Nat) (hm : m % 2 = 0) : (x &&& m) % 2 = 0 := by
  have h := land_mod x m 1
  norm_num at h
  rw [h, hm]
  simp

theorem land_div4 (x m : Nat) (hm : m % 4 = 0) : (x &&& m) % 4 = 0 := by
  have h := land_mod x m 2
  norm_num at h
  rw [h, hm]
  simp

theorem swarStep1_le (x : Nat) : swarStep1 x ≤ x := Nat.sub_le _ _

theorem swarStep1_split (a b : Nat) (ha : a < 2 ^ 8) (hb : b < 2 ^ 24) :
    swarStep1 (a + 2 ^ 8 * b) = swarStep1 a + 2 ^ 8 * swarStep1 b := by
  unfold swarStep1
  have hland : (a + 2 ^ 8 * b) &&& 0xAAAAAAAA = (a &&& 0xAA) + 2 ^ 8 * (b &&& 0xAAAAAA) := by
    have := concat_land 8 a b 0xAAAAAAAA ha
    rw [this]
    norm_num [Nat.shiftRight_eq_div_pow]
  have ea : a &&& 0xAAAAAAAA = a &&& 0xAA := by
    have := land_small 8 a 0xAAAAAAAA ha
    rw [this]
    norm_num
  have eb : b &&& 0xAAAAAAAA = b &&& 0xAAAAAA := by
    have := land_small 24 b 0xAAAAAAAA hb
    rw [this]
    norm_num
  rw [hland, ea, eb]
  have e2a : (a &&& 0xAA) % 2 = 0 := land_even a 0xAA (by norm_num)
  have e2b : (b &&& 0xAAAAAA) % 2 = 0 := land_even b 0xAAAAAA (by norm_num)
  have la : a &&& 0xAA ≤ a := Nat.and_le_left
  have lb : b &&& 0xAAAAAA ≤ b := Nat.and_le_left
  simp only [Nat.shiftRight_eq_div_pow]
  omega

theorem swarStep2_split (a b : Nat) (ha : a < 2 ^ 8) (hb : b < 2 ^ 24) :
    swarStep2 (a + 2 ^ 8 * b) = swarStep2 a + 2 ^ 8 * swarStep2 b := by
  unfold swarStep2
  have hl3 : (a + 2 ^ 8 * b) &&& 0x33333333 = (a &&& 0x33) + 2 ^ 8 * (b &&& 0x333333) := by
    have := concat_land 8 a b 0x33333333 ha
    rw [this]
    norm_num [Nat.shiftRight_eq_div_pow]
  have hlC : (a + 2 ^ 8 * b) &&& 0xCCCCCCCC = (a &&& 0xCC) + 2 ^ 8 * (b &&& 0xCCCCCC) := by
    have := concat_land 8 a b 0xCCCCCCCC ha
    rw [this]
    norm_num [Nat.shiftRight_eq_div_pow]
  have e3a : a &&& 0x33333333 = a &&& 0x33 := by
    have := land_small 8 a 0x33333333 ha
    rw [this]; norm_num
  have e3b : b &&& 0x33333333 = b &&& 0x333333 := by
    have := land_small 24 b 0x33333333 hb
    rw [this]; norm_num
  have eCa : a &&& 0xCCCCCCCC = a &&& 0xCC := by
    have := land_small 8 a 0xCCCCCCCC ha
    rw [this]; norm_num
  have eCb : b &&& 0xCCCCCCCC = b &&& 0xCCCCCC := by
    have := land_small 24 b 0xCCCCCCCC hb
    rw [this]; norm_num
  rw [hl3, hlC, e3a, e3b, eCa, eCb]
  have d4a : (a &&& 0xCC) % 4 = 0 := land_div4 a 0xCC (by norm_num)
  have d4b : (b &&& 0xCCCCCC) % 4 = 0 := land_div4 b 0xCCCCCC (by norm_num)
  have m3a : a &&& 0x33 ≤ 0x33 := Nat.and_le_right
  have m3b : b &&& 0x333333 ≤ 0x333333 := Nat.and_le_right
  have mCa : a &&& 0xCC ≤ 0xCC := Nat.and_le_right
  have mCb : b &&& 0xCCCCCC ≤ 0xCCCCCC := Nat.and_le_right
  simp only [Nat.shiftRight_eq_div_pow]
  omega

theorem land_fifteen (x : Nat) : x &&& 0x0F = x % 16 := by
  have := Nat.and_pow_two_sub_one_eq_mod x 4
  norm_num at this
  exact this

theorem swarStep3_split (a b : Nat) (ha1 : a ≤ 68) (ha2 : a % 16 ≤ 4)
    (hb1 : b ≤ 0x444444) (hb2 : b % 16 ≤ 4) :
    swarStep3 (a + 2 ^ 8 * b) = swarStep3 a + 2 ^ 8 * swarStep3 b := by
  unfold swarStep3
  simp only [Nat.shiftRight_eq_div_pow]
  have e1 : a + 2 ^ 8 * b + (a + 2 ^ 8 * b) / 2 ^ 4
      = (a + a / 16 + 16 * (b % 16)) + 2 ^ 8 * (b + b / 2 ^ 4) := by
    omega
  rw [e1]
  have hbot : a + a / 16 + 16 * (b % 16) < 2 ^ 8 := by omega
  have hland := concat_land 8 (a + a / 16 + 16 * (b % 16)) (b + b / 2 ^ 4) 0x0F0F0F0F hbot
  rw [hland]
  have m1 : (0x0F0F0F0F : Nat) % 2 ^ 8 = 0x0F := by norm_num
  have m2 : (0x0F0F0F0F : Nat) >>> 8 = 0x0F0F0F := by norm_num [Nat.shiftRight_eq_div_pow]
  rw [m1, m2]
  have ea : (a + a / 2 ^ 4) &&& 0x0F0F0F0F = (a + a / 2 ^ 4) &&& 0x0F := by
    have h : a + a / 2 ^ 4 < 2 ^ 8 := by omega
    have := land_small 8 (a + a / 2 ^ 4) 0x0F0F0F0F h
    rw [this]; norm_num
  have ebb : (b + b / 2 ^ 4) &&& 0x0F0F0F0F = (b + b / 2 ^ 4) &&& 0x0F0F0F := by
    have h : b + b / 2 ^ 4 < 2 ^ 24 := by omega
    have := land_small 24 (b + b / 2 ^ 4) 0x0F0F0F0F h
    rw [this]; norm_num
  rw [ea, ebb, land_fifteen, land_fifteen]
  have : (a + a / 16 + 16 * (b % 16)) % 16 = (a + a / 2 ^ 4) % 16 := by omega
  rw [this]

theorem bitCountAux_split (m : Nat) :
    ∀ n a b, a < 2 ^ m → bitCountAux (m + n) (a + 2 ^ m * b) = bitCountAux m a + bitCountAux n b := by
  induction m with
  | zero =>
    intro n a b ha
    have : a = 0 := by omega
    subst this
    simp [bitCountAux]
  | succ m ih =>
    intro n a b ha
    have e0 : m + 1 + n = (m + n) + 1 := by omega
    rw [e0]
    show (a + 2 ^ (m + 1) * b) % 2 + bitCountAux (m + n) ((a + 2 ^ (m + 1) * b) / 2)
      = bitCountAux (m + 1) a + bitCountAux n b
    have e1 : (a + 2 ^ (m + 1) * b) % 2 = a % 2 := by
      have : 2 ^ (m + 1) * b = 2 * (2 ^ m * b) := by ring
      omega
    have e2 : (a + 2 ^ (m + 1) * b) / 2 = a / 2 + 2 ^ m * b := by
      have : 2 ^ (m + 1) * b = 2 * (2 ^ m * b) := by ring
      omega
    rw [e1, e2, ih n (a / 2) b (by omega)]
    show a % 2 + (bitCountAux m (a / 2) + bitCountAux n b)
      = (a % 2 + bitCountAux m (a / 2)) + bitCountAux n b
    omega

theorem byteFacts : ∀ a < 256, swarStep3 (swarStep2 (swarStep1 a)) = bitCountAux 8 a
    ∧ swarStep3 (swarStep2 (swarStep1 a)) ≤ 8
    ∧ swarStep2 (swarStep1 a) ≤ 68 ∧ (swarStep2 (swarStep1 a)) % 16 ≤ 4 := by decide

theorem swarFinal_eq (t0 t1 t2 t3 : Nat) (h0 : t0 ≤ 8) (h1 : t1 ≤ 8) (h2 : t2 ≤ 8) (h3 : t3 ≤ 8) :
    swarFinal (t0 + 2 ^ 8 * (t1 + 2 ^ 8 * (t2 + 2 ^ 8 * t3))) = t0 + t1 + t2 + t3 := by
  unfold swarFinal
  simp only [Nat.shiftRight_eq_div_pow]
  have hL : (t0 + 2 ^ 8 * (t1 + 2 ^ 8 * (t2 + 2 ^ 8 * t3))) * 0x01010101
      = (t0 + 2 ^ 8 * (t0 + t1) + 2 ^ 16 * (t0 + t1 + t2) + 2 ^ 24 * (t0 + t1 + t2 + t3))
        + 2 ^ 32 * (t1 + t2 + t3 + 2 ^ 8 * (t2 + t3) + 2 ^ 16 * t3) := by
    ring
  rw [hL, Nat.add_mul_mod_self_left]
  have hlt : t0 + 2 ^ 8 * (t0 + t1) + 2 ^ 16 * (t0 + t1 + t2) + 2 ^ 24 * (t0 + t1 + t2 + t3)
      < 2 ^ 32 := by omega
  rw [Nat.mod_eq_of_lt hlt]
  omega

theorem popcount_eq_naivePopcount (x : Nat) (hx : x < 2 ^ 32) : popcount x = naivePopcount x := by
  rw [popcount_eq_steps]
  obtain ⟨b0, r2, hb0, hr2, hx0⟩ :
      ∃ b0 r2, b0 < 2 ^ 8 ∧ r2 < 2 ^ 24 ∧ x = b0 + 2 ^ 8 * r2 :=
    ⟨x % 256, x / 256, by omega, by omega, by omega⟩
  obtain ⟨b1, r1, hb1, hr1, hx1⟩ :
      ∃ b1 r1, b1 < 2 ^ 8 ∧ r1 < 2 ^ 16 ∧ r2 = b1 + 2 ^ 8 * r1 :=
    ⟨r2 % 256, r2 / 256, by omega, by omega, by omega⟩
  obtain ⟨b2, b3, hb2, hb3, hx2⟩ :
      ∃ b2 b3, b2 < 2 ^ 8 ∧ b3 < 2 ^ 8 ∧ r1 = b2 + 2 ^ 8 * b3 :=
    ⟨r1 % 256, r1 / 256, by omega, by omega, by omega⟩
  subst hx0 hx1 hx2
  -- step 1 bytewise
  have s1b : ∀ y, y < 2 ^ 8 → swarStep1 y < 2 ^ 8 := fun y hy =>
    Nat.lt_of_le_of_lt (swarStep1_le y) hy
  rw [swarStep1_split b0 _ hb0 (by omega),
    swarStep1_split b1 _ hb1 (by omega),
    swarStep1_split b2 _ hb2 (by omega)]
  -- step 2 bytewise
  have s2mono : ∀ y, y < 2 ^ 8 → swarStep2 (swarStep1 y) ≤ 68 := fun y hy =>
    ((byteFacts y hy).2.2).1
  have hs10 := s1b b0 hb0
  have hs11 := s1b b1 hb1
  have hs12 := s1b b2 hb2
  have hs13 := s1b b3 hb3
  rw [swarStep2_split _ _ hs10 (by
      have l1 := swarStep1_le b1
      have l2 := swarStep1_le b2
      have l3 := swarStep1_le b3
      omega),
    swarStep2_split _ _ hs11 (by
      have l2 := swarStep1_le b2
      have l3 := swarStep1_le b3
      omega),
    swarStep2_split _ _ hs12 (by
      have l3 := swarStep1_le b3
      omega)]
  -- step 3 bytewise
  have c0 := byteFacts b0 hb0
  have c1 := byteFacts b1 hb1
  have c2 := byteFacts b2 hb2
  have c3 := byteFacts b3 hb3
  rw [swarStep3_split _ _ c0.2.2.1 c0.2.2.2 (by
      have := c1.2.2.1
      have := c2.2.2.1
      have := c3.2.2.1
      omega) (by
      have := c1.2.2.1
      have := c1.2.2.2
      omega),
    swarStep3_split _ _ c1.2.2.1 c1.2.2.2 (by
      have := c2.2.2.1
      have := c3.2.2.1
      omega) (by
      have := c2.2.2.1
      have := c2.2.2.2
      omega),
    swarStep3_split _ _ c2.2.2.1 c2.2.2.2 (by
      have := c3.2.2.1
      omega) (by
      have := c3.2.2.1
      have := c3.2.2.2
      omega)]
  rw [c0.1, c1.1, c2.1, c3.1]
  have n0 : bitCountAux 8 b0 ≤ 8 := by rw [← c0.1]; exact c0.2.1
  have n1 : bitCountAux 8 b1 ≤ 8 := by rw [← c1.1]; exact c1.2.1
  have n2 : bitCountAux 8 b2 ≤ 8 := by rw [← c2.1]; exact c2.2.1
  have n3 : bitCountAux 8 b3 ≤ 8 := by rw [← c3.1]; exact c3.2.1
  rw [swarFinal_eq _ _ _ _ n0 n1 n2 n3]
  show _ = bitCountAux 32 _
  have e8 : (32 : Nat) = 8 + 24 := by norm_num
  rw [e8, bitCountAux_split 8 24 b0 _ hb0]
  have e8b : (24 : Nat) = 8 + 16 := by norm_num
  rw [e8b, bitCountAux_split 8 16 b1 _ hb1]
  have e8c : (16 : Nat) = 8 + 8 := by norm_num
  rw [e8c, bitCountAux_split 8 8 b2 _ hb2]
  omega

/-! ## Consistency as a bit test -/

/-- The speaker-bit extraction `(bits >> i) & 1 !== 0` is exactly `testBit`. -/
theorem speakerBit_eq_testBit (a i : Nat) : (((a >>> i) &&& 1) != 0) = a.testBit i := by
  rw [Nat.testBit_to_div_mod, Nat.shiftRight_eq_div_pow, Nat.and_one_is_mod]
  rcases Nat.mod_two_eq_zero_or_one (a / 2 ^ i) with h | h <;> simp [h]

/-- `isConsistentOn` unfolded to the specification's form. -/
theorem isConsistentOn_iff (s : LogicalStatement) (a : Nat) :
    s.isConsistentOn a = true ↔ s.isTrueOn a = a.testBit s.context.speakerIndex := by
  show (s.isTrueOn a == ((a >>> s.context.speakerIndex) &&& 1 != 0)) = true ↔ _
  rw [speakerBit_eq_testBit]
  exact beq_iff_eq

/-- C2: `TypeCountStatement.isTrueOn` returns true exactly when bit number
`popcount(subjectBits AND NOT a)` (over the 32-bit truncations) of
`liarCountBits` is set. -/
theorem C2_typeCount_isTrueOn (context : LogicalStatementContext)
    (subjectBits liarCountBits a : Nat) :
    (LogicalStatement.typeCount context subjectBits liarCountBits).isTrueOn a = true ↔
      liarCountBits.testBit (popcount (jsAndNot subjectBits a)) = true := by
  show ((liarCountBits >>> popcount (jsAndNot subjectBits a)) &&& 1 != 0) = true ↔ _
  rw [speakerBit_eq_testBit]

/-- C3: `solutionsTo` returns exactly the assignments `a ∈ [0, 2^N)` on which
every statement's truth value equals its speaker's bit of `a`. -/
theorem C3_solutionsTo_correct (statements : List LogicalStatement) (a : Nat) :
    a ∈ solutionsTo statements ↔
      (a < 2 ^ statements.length ∧
        ∀ i (h : i < statements.length),
          (statements.get ⟨i, h⟩).isTrueOn a
            = a.testBit (statements.get ⟨i, h⟩).context.speakerIndex) := by
  unfold solutionsTo
  rw [List.mem_filter, List.mem_range]
  constructor
  · rintro ⟨h1, h2⟩
    refine ⟨h1, fun i h => ?_⟩
    have := (List.all_eq_true.mp h2) _ (statements.get_mem i h)
    exact (isConsistentOn_iff _ _).mp this
  · rintro ⟨h1, h2⟩
    refine ⟨h1, List.all_eq_true.mpr ?_⟩
    intro s hs
    obtain ⟨⟨i, h⟩, rfl⟩ := List.mem_iff_get.mp hs
    exact (isConsistentOn_iff _ _).mpr (h2 i h)

/-- C4: on `[0, 2^32)` the SWAR `popcount` equals the naive bit-by-bit count. -/
theorem C4_popcount_correct (x : Nat) (h : x < 2 ^ 32) : popcount x = naivePopcount x :=
  popcount_eq_naivePopcount x h

/-- Witness for C4 at `x = 0xDEADBEEF`. -/
theorem C4_witness :
    (0xDEADBEEF : Nat) < 2 ^ 32 ∧ popcount 0xDEADBEEF = naivePopcount 0xDEADBEEF :=
  ⟨by norm_num, C4_popcount_correct 0xDEADBEEF (by norm_num)⟩

/-! ## Generator invariants -/

/-- Membership of `List.getD` at an in-range index. -/
theorem getD_mem {α : Type} (l : List α) (i : Nat) (d : α) (h : i < l.length) :
    l.getD i d ∈ l := by
  rw [List.getD_eq_getElem l d h]
  exact List.getElem_mem h

/-- What `TypeCountStatement.random` guarantees whenever it returns. -/
theorem typeCountRandom_spec (context : LogicalStatementContext) :
    ∀ fuel o s o', TypeCountStatement.random context fuel o = some (s, o') →
      ∃ subjectBits liarCountBits,
        s = LogicalStatement.typeCount context subjectBits liarCountBits ∧
        subjectBits < 2 ^ context.personCount ∧
        2 ≤ popcount subjectBits ∧
        1 ≤ liarCountBits ∧
        liarCountBits ≤ 2 ^ (popcount subjectBits + 1) - 2 := by
  intro fuel
  induction fuel with
  | zero => intro o s o' h; simp [TypeCountStatement.random] at h
  | succ fuel ih =>
    intro o s o' h
    rw [TypeCountStatement.random] at h
    simp only [randBelow] at h
    by_cases hpc : popcount (o.headD 0 % (1 <<< context.personCount)) ≤ 1
    · rw [if_pos hpc] at h
      exact ih _ _ _ h
    · rw [if_neg hpc] at h
      simp only [Option.some.injEq, Prod.mk.injEq] at h
      obtain ⟨hs, -⟩ := h
      have hNpos : 0 < 1 <<< context.personCount := by
        rw [Nat.one_shiftLeft]; positivity
      refine ⟨_, _, hs.symm, ?_, by omega, by omega, ?_⟩
      · rw [← Nat.one_shiftLeft]
        exact Nat.mod_lt _ hNpos
      · have h8 : (8 : Nat) ≤ 2 ^ (popcount (o.headD 0 % 1 <<< context.personCount) + 1) := by
          have h3 : (2 : Nat) ^ 3 ≤ 2 ^ (popcount (o.headD 0 % 1 <<< context.personCount) + 1) :=
            Nat.pow_le_pow_right (by norm_num) (by omega)
          omega
        have hmask :
            0 < 1 <<< (popcount (o.headD 0 % 1 <<< context.personCount) + 1) - 2 := by
          rw [Nat.one_shiftLeft]; omega
        have hq := Nat.mod_lt (o.tail.headD 0) hmask
        rw [Nat.one_shiftLeft] at hq ⊢
        omega


/-- The shipped registry always has an eligible class at `maxLayer = 0`. -/
theorem eligibleClasses_zero_ne_nil : eligibleClasses (0 : Int) ≠ [] := by decide

/-- The shipped registry always has an eligible class at `maxLayer = 1`. -/
theorem eligibleClasses_one_ne_nil : eligibleClasses (1 : Int) ≠ [] := by decide

/-- The postcondition each generator procedure guarantees of a produced
statement (the caller's context is used unchanged as the statement's context,
substatement contexts are the `from'` copies, the variant respects the layer
bound, and the rejection predicate of the loop is false on the result). -/
def GenCallPost : GenCall → LogicalStatementContext → LogicalStatement → Prop
  | GenCall.gen maxLayer, context, s =>
    s.context = context ∧ (s.rootNestingLayer : WithTop Int) ≤ maxLayer ∧
      hasDuplicate s.subjectBitsArray = false
  | GenCall.andRandom, context, s =>
    ∃ s1 s2, s = LogicalStatement.logicalAnd context s1 s2 ∧
      s1.context = andSubstatementContext1 context ∧
      s2.context = andSubstatementContext2 context s1.predicate ∧
      s1.implies s = false ∧ s2.implies s = false ∧
      (LogicalStatement.basicNot s).isTautology = false
  | GenCall.orRandom, context, s =>
    ∃ s1 s2, s = LogicalStatement.logicalOr context s1 s2 ∧
      s1.context = orSubstatementContext context ∧
      s2.context = orSubstatementContext context ∧
      s.implies s1 = false ∧ s.implies s2 = false ∧ s.isTautology = false
  | GenCall.ifRandom, context, s =>
    ∃ s1 s2, s = LogicalStatement.logicalIf context s1 s2 ∧
      s1.context = ifAntecedentContext context ∧
      s2.context = ifConsequentContext context s1.predicate ∧
      s.implies (LogicalStatement.basicNot s1) = false ∧ s.implies s2 = false ∧
      s.isTautology = false

/-- Master invariant of the generator: whenever `genRun` returns, an error can
only be the "no eligible class" error of `randomStatement`, and a produced
statement satisfies its procedure's postcondition. -/
theorem genRun_post :
    ∀ fuel call context o r, genRun fuel call context o = some r →
      (r = Except.error () → ∃ ml, call = GenCall.gen ml ∧ eligibleClasses ml = []) ∧
      (∀ sp, r = Except.ok sp → GenCallPost call context sp.1) := by
  intro fuel
  induction fuel with
  | zero => intro call context o r h; simp [genRun] at h
  | succ fuel ih =>
    intro call context o r h
    rcases call with ml | _ | _ | _
    · -- randomStatement
      simp only [genRun, randBelow] at h
      by_cases hlen : (eligibleClasses ml).length = 0
      · rw [if_pos hlen] at h
        have hr : Except.error () = r := by simpa using h
        refine ⟨fun _ => ⟨ml, rfl, List.length_eq_zero.mp hlen⟩, fun sp hsp => ?_⟩
        rw [← hr] at hsp
        simp at hsp
      · rw [if_neg hlen] at h
        have hidx : o.headD 0 % (eligibleClasses ml).length < (eligibleClasses ml).length :=
          Nat.mod_lt _ (Nat.pos_of_ne_zero hlen)
        have hmem := getD_mem (eligibleClasses ml) (o.headD 0 % (eligibleClasses ml).length)
          StatementClass.trueFalse hidx
        have hle : ((((eligibleClasses ml).getD (o.headD 0 % (eligibleClasses ml).length)
            StatementClass.trueFalse).nestingLayer : WithTop Int)) ≤ ml :=
          of_decide_eq_true (List.mem_filter.mp hmem).2
        rcases hcls : (eligibleClasses ml).getD (o.headD 0 % (eligibleClasses ml).length)
            StatementClass.trueFalse with _ | _ | _ | _ | _
        · -- TrueFalseStatement
          rw [hcls] at h hle
          simp only [TrueFalseStatement.random, randBelow, randBool'] at h
          rw [if_neg (by simp [LogicalStatement.subjectBitsArray, hasDuplicate,
            hasDuplicateAux])] at h
          simp only [Option.some.injEq] at h
          subst h
          refine ⟨fun hre => by simp at hre, fun sp hsp => ?_⟩
          obtain rfl := Except.ok.inj hsp
          refine ⟨rfl, hle, by simp [LogicalStatement.subjectBitsArray, hasDuplicate,
            hasDuplicateAux]⟩
        · -- TypeCountStatement
          rw [hcls] at h hle
          rcases htc : TypeCountStatement.random context fuel o.tail with _ | ⟨s0, o0⟩
          · rw [htc] at h
            simp at h
          · rw [htc] at h
            simp only [Option.map_some'] at h
            try dsimp only at h
            obtain ⟨sb, lcb, rfl, -, -, -, -⟩ := typeCountRandom_spec context fuel _ _ _ htc
            by_cases hdup :
                hasDuplicate (LogicalStatement.typeCount context sb lcb).subjectBitsArray = true
            · rw [if_pos hdup] at h
              exact ih _ _ _ _ h
            · rw [if_neg hdup] at h
              simp only [Option.some.injEq] at h
              subst h
              refine ⟨fun hre => by simp at hre, fun sp hsp => ?_⟩
              obtain rfl := Except.ok.inj hsp
              exact ⟨rfl, hle, by simpa using hdup⟩
        · -- LogicalAndStatement
          rw [hcls] at h hle
          rcases hand : genRun fuel GenCall.andRandom context o.tail with _ | e | ⟨s0, o0⟩
          · rw [hand] at h
            simp at h
          · rw [hand] at h
            try dsimp only at h
            simp only [Option.some.injEq] at h
            subst h
            rcases e
            obtain ⟨ml', heq, -⟩ := (ih _ _ _ _ hand).1 rfl
            simp at heq
          · rw [hand] at h
            try dsimp only at h
            obtain ⟨s1, s2, rfl, -, -, -, -, -⟩ := (ih _ _ _ _ hand).2 _ rfl
            by_cases hdup :
                hasDuplicate (LogicalStatement.logicalAnd context s1 s2).subjectBitsArray = true
            · rw [if_pos hdup] at h
              exact ih _ _ _ _ h
            · rw [if_neg hdup] at h
              simp only [Option.some.injEq] at h
              subst h
              refine ⟨fun hre => by simp at hre, fun sp hsp => ?_⟩
              obtain rfl := Except.ok.inj hsp
              exact ⟨rfl, hle, by simpa using hdup⟩
        · -- LogicalOrStatement
          rw [hcls] at h hle
          rcases hor : genRun fuel GenCall.orRandom context o.tail with _ | e | ⟨s0, o0⟩
          · rw [hor] at h
            simp at h
          · rw [hor] at h
            try dsimp only at h
            simp only [Option.some.injEq] at h
            subst h
            rcases e
            obtain ⟨ml', heq, -⟩ := (ih _ _ _ _ hor).1 rfl
            simp at heq
          · rw [hor] at h
            try dsimp only at h
            obtain ⟨s1, s2, rfl, -, -, -, -, -⟩ := (ih _ _ _ _ hor).2 _ rfl
            by_cases hdup :
                hasDuplicate (LogicalStatement.logicalOr context s1 s2).subjectBitsArray = true
            · rw [if_pos hdup] at h
              exact ih _ _ _ _ h
            · rw [if_neg hdup] at h
              simp only [Option.some.injEq] at h
              subst h
              refine ⟨fun hre => by simp at hre, fun sp hsp => ?_⟩
              obtain rfl := Except.ok.inj hsp
              exact ⟨rfl, hle, by simpa using hdup⟩
        · -- LogicalIfStatement
          rw [hcls] at h hle
          rcases hif : genRun fuel GenCall.ifRandom context o.tail with _ | e | ⟨s0, o0⟩
          · rw [hif] at h
            simp at h
          · rw [hif] at h
            try dsimp only at h
            simp only [Option.some.injEq] at h
            subst h
            rcases e
            obtain ⟨ml', heq, -⟩ := (ih _ _ _ _ hif).1 rfl
            simp at heq
          · rw [hif] at h
            try dsimp only at h
            obtain ⟨s1, s2, rfl, -, -, -, -, -⟩ := (ih _ _ _ _ hif).2 _ rfl
            by_cases hdup :
                hasDuplicate (LogicalStatement.logicalIf context s1 s2).subjectBitsArray = true
            · rw [if_pos hdup] at h
              exact ih _ _ _ _ h
            · rw [if_neg hdup] at h
              simp only [Option.some.injEq] at h
              subst h
              refine ⟨fun hre => by simp at hre, fun sp hsp => ?_⟩
              obtain rfl := Except.ok.inj hsp
              exact ⟨rfl, hle, by simpa using hdup⟩
    · -- LogicalAndStatement.random
      simp only [genRun] at h
      rcases h1 : genRun fuel (GenCall.gen 0) (andSubstatementContext1 context) o
          with _ | e | ⟨s1, o1⟩
      · rw [h1] at h
        simp at h
      · rw [h1] at h
        try dsimp only at h
        simp only [Option.some.injEq] at h
        subst h
        rcases e
        obtain ⟨ml', heq, hemp⟩ := (ih _ _ _ _ h1).1 rfl
        obtain rfl : (0 : WithTop Int) = ml' := by
          injection heq
        exact absurd hemp eligibleClasses_zero_ne_nil
      · rw [h1] at h
        try dsimp only at h
        rcases h2 : genRun fuel (GenCall.gen 0)
            (andSubstatementContext2 context s1.predicate) o1 with _ | e | ⟨s2, o2⟩
        · rw [h2] at h
          simp at h
        · rw [h2] at h
          simp only [Option.some.injEq] at h
          subst h
          rcases e
          obtain ⟨ml', heq, hemp⟩ := (ih _ _ _ _ h2).1 rfl
          obtain rfl : (0 : WithTop Int) = ml' := by
            injection heq
          exact absurd hemp eligibleClasses_zero_ne_nil
        · rw [h2] at h
          try dsimp only at h
          by_cases hg : (s1.implies (LogicalStatement.logicalAnd context s1 s2) ||
              s2.implies (LogicalStatement.logicalAnd context s1 s2) ||
              (LogicalStatement.basicNot
                (LogicalStatement.logicalAnd context s1 s2)).isTautology) = true
          · rw [if_pos hg] at h
            exact ih _ _ _ _ h
          · rw [if_neg hg] at h
            simp only [Option.some.injEq] at h
            subst h
            refine ⟨fun hre => by simp at hre, fun sp hsp => ?_⟩
            obtain rfl := Except.ok.inj hsp
            simp only [Bool.or_eq_true, not_or, Bool.not_eq_true] at hg
            exact ⟨s1, s2, rfl, ((ih _ _ _ _ h1).2 _ rfl).1,
              ((ih _ _ _ _ h2).2 _ rfl).1, hg.1.1, hg.1.2, hg.2⟩
    · -- LogicalOrStatement.random
      simp only [genRun] at h
      rcases h1 : genRun fuel (GenCall.gen 0) (orSubstatementContext context) o
          with _ | e | ⟨s1, o1⟩
      · rw [h1] at h
        simp at h
      · rw [h1] at h
        try dsimp only at h
        simp only [Option.some.injEq] at h
        subst h
        rcases e
        obtain ⟨ml', heq, hemp⟩ := (ih _ _ _ _ h1).1 rfl
        obtain rfl : (0 : WithTop Int) = ml' := by
          injection heq
        exact absurd hemp eligibleClasses_zero_ne_nil
      · rw [h1] at h
        try dsimp only at h
        rcases h2 : genRun fuel (GenCall.gen 0) (orSubstatementContext context) o1
            with _ | e | ⟨s2, o2⟩
        · rw [h2] at h
          simp at h
        · rw [h2] at h
          simp only [Option.some.injEq] at h
          subst h
          rcases e
          obtain ⟨ml', heq, hemp⟩ := (ih _ _ _ _ h2).1 rfl
          obtain rfl : (0 : WithTop Int) = ml' := by
            injection heq
          exact absurd hemp eligibleClasses_zero_ne_nil
        · rw [h2] at h
          try dsimp only at h
          by_cases hg : ((LogicalStatement.logicalOr context s1 s2).implies s1 ||
              (LogicalStatement.logicalOr context s1 s2).implies s2 ||
              (LogicalStatement.logicalOr context s1 s2).isTautology) = true
          · rw [if_pos hg] at h
            exact ih _ _ _ _ h
          · rw [if_neg hg] at h
            simp only [Option.some.injEq] at h
            subst h
            refine ⟨fun hre => by simp at hre, fun sp hsp => ?_⟩
            obtain rfl := Except.ok.inj hsp
            simp only [Bool.or_eq_true, not_or, Bool.not_eq_true] at hg
            exact ⟨s1, s2, rfl, ((ih _ _ _ _ h1).2 _ rfl).1,
              ((ih _ _ _ _ h2).2 _ rfl).1, hg.1.1, hg.1.2, hg.2⟩
    · -- LogicalIfStatement.random
      simp only [genRun] at h
      rcases h1 : genRun fuel (GenCall.gen 1) (ifAntecedentContext context) o
          with _ | e | ⟨s1, o1⟩
      · rw [h1] at h
        simp at h
      · rw [h1] at h
        try dsimp only at h
        simp only [Option.some.injEq] at h
        subst h
        rcases e
        obtain ⟨ml', heq, hemp⟩ := (ih _ _ _ _ h1).1 rfl
        obtain rfl : (1 : WithTop Int) = ml' := by
          injection heq
        exact absurd hemp eligibleClasses_one_ne_nil
      · rw [h1] at h
        try dsimp only at h
        rcases h2 : genRun fuel (GenCall.gen 1)
            (ifConsequentContext context s1.predicate) o1 with _ | e | ⟨s2, o2⟩
        · rw [h2] at h
          simp at h
        · rw [h2] at h
          simp only [Option.some.injEq] at h
          subst h
          rcases e
          obtain ⟨ml', heq, hemp⟩ := (ih _ _ _ _ h2).1 rfl
          obtain rfl : (1 : WithTop Int) = ml' := by
            injection heq
          exact absurd hemp eligibleClasses_one_ne_nil
        · rw [h2] at h
          try dsimp only at h
          by_cases hg : ((LogicalStatement.logicalIf context s1 s2).implies
                (LogicalStatement.basicNot s1) ||
              (LogicalStatement.logicalIf context s1 s2).implies s2 ||
              (LogicalStatement.logicalIf context s1 s2).isTautology) = true
          · rw [if_pos hg] at h
            exact ih _ _ _ _ h
          · rw [if_neg hg] at h
            simp only [Option.some.injEq] at h
            subst h
            refine ⟨fun hre => by simp at hre, fun sp hsp => ?_⟩
            obtain rfl := Except.ok.inj hsp
            simp only [Bool.or_eq_true, not_or, Bool.not_eq_true] at hg
            exact ⟨s1, s2, rfl, ((ih _ _ _ _ h1).2 _ rfl).1,
              ((ih _ _ _ _ h2).2 _ rfl).1, hg.1.1, hg.1.2, hg.2⟩

/-! ## Claims about the generator -/

/-- The registry filter is empty exactly when `maxLayer` is below every
registered layer, i.e. below `0`. -/
theorem eligibleClasses_eq_nil_iff (maxLayer : WithTop Int) :
    eligibleClasses maxLayer = [] ↔ maxLayer < ((0 : Int) : WithTop Int) := by
  constructor
  · intro h
    by_contra hlt
    rw [not_lt] at hlt
    have hmem : StatementClass.trueFalse ∈ eligibleClasses maxLayer :=
      List.mem_filter.mpr ⟨by simp [childStatementClasses], decide_eq_true hlt⟩
    rw [h] at hmem
    simp at hmem
  · intro hlt
    apply List.filter_eq_nil_iff.mpr
    intro c hc
    simp only [decide_eq_true_eq]
    intro hle
    have h0 : ((0 : Int) : WithTop Int) ≤ (c.nestingLayer : WithTop Int) := by
      rcases c <;> decide
    exact absurd (le_trans h0 hle) (not_le.mpr hlt)

/-- C7: every statement `randomStatement` produces has a root variant whose
`nestingLayer` is at most `maxLayer`, and a `subjectBitsArray` without
duplicates. -/
theorem C7_randomStatement_post (fuel : Nat) (context : LogicalStatementContext)
    (maxLayer : WithTop Int) (o : List Nat) (s : LogicalStatement) (o' : List Nat)
    (h : LogicalStatementGenerator.randomStatement fuel context maxLayer o
      = some (Except.ok (s, o'))) :
    (s.rootNestingLayer : WithTop Int) ≤ maxLayer ∧ hasDuplicate s.subjectBitsArray = false :=
  ⟨((genRun_post fuel _ context o _ h).2 (s, o') rfl).2.1,
   ((genRun_post fuel _ context o _ h).2 (s, o') rfl).2.2⟩

/-- Shared concrete context for witnesses: two people, speaker `A`, root. -/
def sampleContext : LogicalStatementContext := ⟨2, 0, true, false, none, 1⟩

/-- Witness for C7 on a concrete generator run. -/
theorem C7_witness :
    ((LogicalStatement.trueFalse sampleContext 0 true).rootNestingLayer : WithTop Int) ≤ ⊤ ∧
      hasDuplicate (LogicalStatement.trueFalse sampleContext 0 true).subjectBitsArray = false :=
  C7_randomStatement_post 1 sampleContext ⊤ [0, 0, 0]
    (LogicalStatement.trueFalse sampleContext 0 true) [] rfl

/-- C8: `randomStatement` yields the configuration error exactly when no
registered class has `nestingLayer ≤ maxLayer`, which with the shipped
registry (layers {0,0,1,1,2}) happens exactly for `maxLayer < 0`; whenever at
least one class qualifies, no error is produced (rejections only recurse). -/
theorem C8_randomStatement_error (fuel : Nat) (context : LogicalStatementContext)
    (maxLayer : WithTop Int) (o : List Nat) (hfuel : 0 < fuel) :
    (LogicalStatementGenerator.randomStatement fuel context maxLayer o = some (Except.error ())
      ↔ eligibleClasses maxLayer = [])
    ∧ (eligibleClasses maxLayer = [] ↔ maxLayer < ((0 : Int) : WithTop Int)) := by
  refine ⟨⟨fun h => ?_, fun h => ?_⟩, eligibleClasses_eq_nil_iff maxLayer⟩
  · obtain ⟨ml', heq, hemp⟩ := (genRun_post fuel _ context o _ h).1 rfl
    obtain rfl : maxLayer = ml' := by injection heq
    exact hemp
  · rcases fuel with _ | f
    · omega
    · show genRun (f + 1) (GenCall.gen maxLayer) context o = _
      simp [genRun, h]

/-- Witness for C8 at `maxLayer = -1` (the error case) with one unit of fuel. -/
theorem C8_witness :
    (LogicalStatementGenerator.randomStatement 1 sampleContext ((-1 : Int) : WithTop Int) []
        = some (Except.error ())
      ↔ eligibleClasses ((-1 : Int) : WithTop Int) = [])
    ∧ (eligibleClasses ((-1 : Int) : WithTop Int) = []
      ↔ ((-1 : Int) : WithTop Int) < ((0 : Int) : WithTop Int)) :=
  C8_randomStatement_error 1 sampleContext ((-1 : Int) : WithTop Int) [] (by norm_num)

/-- C9: `LogicalStatementContext.from'` copies all six fields, every
generator procedure uses the caller's context, unchanged, as the produced
statement's context, and the substatement contexts are exactly the local
`from'` copies with the source's field updates. -/
theorem C9_context_frame :
    (∀ other, LogicalStatementContext.from' other = other) ∧
    (∀ fuel context maxLayer o s o',
      LogicalStatementGenerator.randomStatement fuel context maxLayer o
        = some (Except.ok (s, o')) → s.context = context) ∧
    (∀ fuel context o s o',
      LogicalAndStatement.random fuel context o = some (Except.ok (s, o')) →
        s.context = context ∧ ∃ s1 s2, s = LogicalStatement.logicalAnd context s1 s2 ∧
          s1.context = andSubstatementContext1 context ∧
          s2.context = andSubstatementContext2 context s1.predicate) ∧
    (∀ fuel context o s o',
      LogicalOrStatement.random fuel context o = some (Except.ok (s, o')) →
        s.context = context ∧ ∃ s1 s2, s = LogicalStatement.logicalOr context s1 s2 ∧
          s1.context = orSubstatementContext context ∧
          s2.context = orSubstatementContext context) ∧
    (∀ fuel context o s o',
      LogicalIfStatement.random fuel context o = some (Except.ok (s, o')) →
        s.context = context ∧ ∃ s1 s2, s = LogicalStatement.logicalIf context s1 s2 ∧
          s1.context = ifAntecedentContext context ∧
          s2.context = ifConsequentContext context s1.predicate) := by
  refine ⟨fun other => rfl,
    fun fuel context maxLayer o s o' h => ((genRun_post fuel _ context o _ h).2 _ rfl).1,
    fun fuel context o s o' h => ?_, fun fuel context o s o' h => ?_,
    fun fuel context o s o' h => ?_⟩
  · obtain ⟨s1, s2, rfl, h1, h2, -, -, -⟩ := (genRun_post fuel _ context o _ h).2 _ rfl
    exact ⟨rfl, s1, s2, rfl, h1, h2⟩
  · obtain ⟨s1, s2, rfl, h1, h2, -, -, -⟩ := (genRun_post fuel _ context o _ h).2 _ rfl
    exact ⟨rfl, s1, s2, rfl, h1, h2⟩
  · obtain ⟨s1, s2, rfl, h1, h2, -, -, -⟩ := (genRun_post fuel _ context o _ h).2 _ rfl
    exact ⟨rfl, s1, s2, rfl, h1, h2⟩

/-- Witness for C9 on a concrete `randomStatement` run. -/
theorem C9_witness :
    LogicalStatementContext.from' sampleContext = sampleContext ∧
      (LogicalStatement.trueFalse sampleContext 0 true).context = sampleContext :=
  ⟨C9_context_frame.1 sampleContext,
   C9_context_frame.2.1 1 sampleContext ⊤ [0, 0, 0]
     (LogicalStatement.trueFalse sampleContext 0 true) [] rfl⟩

/-! ## Claim C1 -/

/-- First substatement of the concrete disjunction below. -/
def c1Substatement1 : LogicalStatement :=
  LogicalStatement.trueFalse (orSubstatementContext sampleContext) 0 true

/-- Second substatement of the concrete disjunction below. -/
def c1Substatement2 : LogicalStatement :=
  LogicalStatement.trueFalse (orSubstatementContext sampleContext) 1 true

/-- A concrete disjunction (`A is honest or B is honest`) that
`LogicalOrStatement.random` returns. -/
def c1Compound : LogicalStatement :=
  LogicalStatement.logicalOr sampleContext c1Substatement1 c1Substatement2

/-- C1 counterexample: `LogicalOrStatement.random` returns `c1Compound`, yet
`substatement1.implies(compound)` is `true` on it (each disjunct always
implies the disjunction; the source's Or-guard checks the converse direction
`compound.implies(substatement)` instead). -/
theorem C1_counterexample :
    LogicalOrStatement.random 2 sampleContext [0, 0, 0, 0, 1, 0]
        = some (Except.ok (c1Compound, [])) ∧
      c1Substatement1.implies c1Compound = true :=
  ⟨rfl, rfl⟩

/-- C1 (amended): on every returned compound, the rejection loop's own checks
are false: for a conjunction neither substatement implies the compound; for a
disjunction the compound implies neither substatement. -/
theorem C1_no_redundant_substatement :
    (∀ fuel context o s o',
      LogicalAndStatement.random fuel context o = some (Except.ok (s, o')) →
        ∃ s1 s2, s = LogicalStatement.logicalAnd context s1 s2 ∧
          s1.implies s = false ∧ s2.implies s = false) ∧
    (∀ fuel context o s o',
      LogicalOrStatement.random fuel context o = some (Except.ok (s, o')) →
        ∃ s1 s2, s = LogicalStatement.logicalOr context s1 s2 ∧
          s.implies s1 = false ∧ s.implies s2 = false) := by
  constructor
  · intro fuel context o s o' h
    obtain ⟨s1, s2, rfl, -, -, hi1, hi2, -⟩ := (genRun_post fuel _ context o _ h).2 _ rfl
    exact ⟨s1, s2, rfl, hi1, hi2⟩
  · intro fuel context o s o' h
    obtain ⟨s1, s2, rfl, -, -, hi1, hi2, -⟩ := (genRun_post fuel _ context o _ h).2 _ rfl
    exact ⟨s1, s2, rfl, hi1, hi2⟩

/-- The concrete conjunction returned by the run in the C1 witness. -/
def c1AndCompound : LogicalStatement :=
  LogicalStatement.logicalAnd sampleContext
    (LogicalStatement.trueFalse (andSubstatementContext1 sampleContext) 0 true)
    (LogicalStatement.trueFalse (andSubstatementContext2 sampleContext (some true)) 1 true)

/-- Witness for the amended C1 on concrete And and Or runs. -/
theorem C1_witness :
    (∃ s1 s2, c1AndCompound = LogicalStatement.logicalAnd sampleContext s1 s2 ∧
      s1.implies c1AndCompound = false ∧ s2.implies c1AndCompound = false) ∧
    (∃ s1 s2, c1Compound = LogicalStatement.logicalOr sampleContext s1 s2 ∧
      c1Compound.implies s1 = false ∧ c1Compound.implies s2 = false) :=
  ⟨C1_no_redundant_substatement.1 2 sampleContext [0, 0, 0, 0, 1, 0] c1AndCompound [] rfl,
   C1_no_redundant_substatement.2 2 sampleContext [0, 0, 0, 0, 1, 0] c1Compound [] rfl⟩

/-! ## Claim C6: the length band -/

/-- The interpolation parameter is nonnegative for nonnegative dial values. -/
theorem rpow_param_nonneg (t : ℝ) (ht : 0 ≤ t) : 0 ≤ ((2 : ℝ) ^ (2 * t) - 1) / 3 := by
  have h1 : (1 : ℝ) ≤ (2 : ℝ) ^ (2 * t) := by
    calc (1 : ℝ) = (2 : ℝ) ^ (0 : ℝ) := by rw [Real.rpow_zero]
    _ ≤ (2 : ℝ) ^ (2 * t) := by
        exact (Real.rpow_le_rpow_left_iff (by norm_num)).mpr (by linarith)
  linarith

theorem interpolated_mono (personCount : Nat) (t t' : ℝ) (hN : 2 ≤ personCount)
    (ht : 0 ≤ t) (htt : t ≤ t') :
    interpolatedSentenceLength personCount t ≤ interpolatedSentenceLength personCount t' := by
  unfold interpolatedSentenceLength
  have hdiff : (0 : ℝ) ≤ 100 * ((personCount : ℝ) - 1) - 11 * personCount := by
    have : (2 : ℝ) ≤ (personCount : ℝ) := by exact_mod_cast hN
    nlinarith
  have hparam : ((2 : ℝ) ^ (2 * t) - 1) / 3 ≤ ((2 : ℝ) ^ (2 * t') - 1) / 3 := by
    have : (2 : ℝ) ^ (2 * t) ≤ (2 : ℝ) ^ (2 * t') :=
      (Real.rpow_le_rpow_left_iff (by norm_num)).mpr (by linarith)
    linarith
  have h0 := rpow_param_nonneg t ht
  simp only []
  nlinarith

theorem interpolated_nonneg (personCount : Nat) (t : ℝ) (hN : 2 ≤ personCount) (ht : 0 ≤ t) :
    0 ≤ interpolatedSentenceLength personCount t := by
  unfold interpolatedSentenceLength
  have hdiff : (0 : ℝ) ≤ 100 * ((personCount : ℝ) - 1) - 11 * personCount := by
    have : (2 : ℝ) ≤ (personCount : ℝ) := by exact_mod_cast hN
    nlinarith
  have h0 := rpow_param_nonneg t ht
  have hstart : (0 : ℝ) ≤ 11 * personCount := by positivity
  simp only []
  nlinarith

/-- C6 -/
theorem C6_length_band (personCount c c' : Nat) (hN1 : 2 ≤ personCount) (hN2 : personCount ≤ 8)
    (hcc : c ≤ c') (hc4 : c' ≤ 4) :
    minSentenceLength personCount c ≤ minSentenceLength personCount c' ∧
      maxSentenceLength personCount 4 = ⊤ ∧
      (∀ d, d < 4 → maxSentenceLength personCount d ≠ ⊤) := by
  refine ⟨?_, if_pos rfl, fun d hd => ?_⟩
  · unfold minSentenceLength
    by_cases hc : c = 0
    · rw [if_pos hc]
      by_cases hc' : c' = 0
      · rw [if_pos hc']
      · rw [if_neg hc']
        exact interpolated_nonneg personCount _ hN1 (by positivity)
    · rw [if_neg hc, if_neg (by omega)]
      apply interpolated_mono personCount _ _ hN1 (by positivity)
      have : (c : ℝ) ≤ (c' : ℝ) := by exact_mod_cast hcc
      linarith
  · unfold maxSentenceLength
    rw [if_neg (by omega)]
    exact WithTop.coe_ne_top

/-- Witness for C6. -/
theorem C6_witness :
    (2 ≤ 2 ∧ (2 : Nat) ≤ 8 ∧ 1 ≤ 3 ∧ 3 ≤ 4) ∧
      (minSentenceLength 2 1 ≤ minSentenceLength 2 3 ∧
        maxSentenceLength 2 4 = ⊤ ∧ (∀ d, d < 4 → maxSentenceLength 2 d ≠ ⊤)) :=
  ⟨by norm_num, C6_length_band 2 1 3 (by norm_num) (by norm_num) (by norm_num) (by norm_num)⟩

/-! ## Claim C10: generated TypeCountStatements are non-degenerate -/

/-- The number formed by the lowest `m` set bits of `sb` (scanning `fuel`
low-order bit positions): a liar set of prescribed size inside the subject
set. -/
def lowestSetBitsAux : Nat → Nat → Nat → Nat
  | 0, _, _ => 0
  | fuel+1, sb, m =>
    if sb % 2 = 1 ∧ 0 < m then 1 + 2 * lowestSetBitsAux fuel (sb / 2) (m - 1)
    else 2 * lowestSetBitsAux fuel (sb / 2) m

theorem lowestSetBitsAux_lt (fuel : Nat) : ∀ sb m, lowestSetBitsAux fuel sb m < 2 ^ fuel := by
  induction fuel with
  | zero => intro sb m; simp [lowestSetBitsAux]
  | succ fuel ih =>
    intro sb m
    rw [lowestSetBitsAux]
    have h1 := ih (sb / 2) (m - 1)
    have h2 := ih (sb / 2) m
    split <;> [skip; skip] <;> rw [Nat.pow_succ] <;> omega

theorem lowestSetBitsAux_testBit (fuel : Nat) :
    ∀ sb m i, (lowestSetBitsAux fuel sb m).testBit i = true → sb.testBit i = true := by
  induction fuel with
  | zero => intro sb m i h; simp [lowestSetBitsAux] at h
  | succ fuel ih =>
    intro sb m i h
    rw [lowestSetBitsAux] at h
    rcases i with _ | i
    · rw [Nat.testBit_zero] at h ⊢
      split at h
      · next hc => simp only [decide_eq_true_eq]; omega
      · next hc =>
        simp only [decide_eq_true_eq] at h
        omega
    · rw [Nat.testBit_succ] at h ⊢
      split at h
      · next hc =>
        have e : (1 + 2 * lowestSetBitsAux fuel (sb / 2) (m - 1)) / 2
            = lowestSetBitsAux fuel (sb / 2) (m - 1) := by omega
        rw [e] at h
        exact ih _ _ _ h
      · next hc =>
        have e : (2 * lowestSetBitsAux fuel (sb / 2) m) / 2
            = lowestSetBitsAux fuel (sb / 2) m := by omega
        rw [e] at h
        exact ih _ _ _ h

theorem lowestSetBitsAux_count (fuel : Nat) :
    ∀ sb m, m ≤ bitCountAux fuel sb →
      bitCountAux fuel (lowestSetBitsAux fuel sb m) = m := by
  induction fuel with
  | zero => intro sb m h; simp [bitCountAux] at h ⊢; omega
  | succ fuel ih =>
    intro sb m h
    rw [lowestSetBitsAux]
    rw [bitCountAux] at h
    split
    · next hc =>
      rw [bitCountAux]
      have e1 : (1 + 2 * lowestSetBitsAux fuel (sb / 2) (m - 1)) % 2 = 1 := by omega
      have e2 : (1 + 2 * lowestSetBitsAux fuel (sb / 2) (m - 1)) / 2
          = lowestSetBitsAux fuel (sb / 2) (m - 1) := by omega
      rw [e1, e2, ih _ _ (by omega)]
      omega
    · next hc =>
      rw [bitCountAux]
      have e1 : (2 * lowestSetBitsAux fuel (sb / 2) m) % 2 = 0 := by omega
      have e2 : (2 * lowestSetBitsAux fuel (sb / 2) m) / 2
          = lowestSetBitsAux fuel (sb / 2) m := by omega
      have hm' : m ≤ bitCountAux fuel (sb / 2) := by
        rcases not_and_or.mp hc with h3 | h3 <;> omega
      rw [e1, e2, ih _ _ hm']
      omega

/-- A submask is at most the mask. -/
theorem lowestSetBits_le (sb m : Nat) : lowestSetBitsAux 32 sb m ≤ sb := by
  have heq : lowestSetBitsAux 32 sb m &&& sb = lowestSetBitsAux 32 sb m := by
    apply Nat.eq_of_testBit_eq
    intro i
    rw [Nat.testBit_and]
    rcases hp : (lowestSetBitsAux 32 sb m).testBit i
    · simp
    · simp [lowestSetBitsAux_testBit 32 sb m i hp]
  calc lowestSetBitsAux 32 sb m = lowestSetBitsAux 32 sb m &&& sb := heq.symm
  _ ≤ sb := Nat.and_le_right

/-- Any liar count up to `popcount subjectBits` is realized by an assignment
in `[0, 2^personCount)`, for subject sets inside the 30-bit range where the
embedding is faithful to the JS 32-bit semantics. -/
theorem liarCount_realizable (personCount sb : Nat) (hsb : sb < 2 ^ personCount)
    (hN30 : personCount ≤ 30) (m : Nat) (hm : m ≤ popcount sb) :
    ∃ a, a < 2 ^ personCount ∧ popcount (jsAndNot sb a) = m := by
  have hsb32 : sb < 2 ^ 32 :=
    lt_of_lt_of_le hsb (Nat.pow_le_pow_right (by norm_num) (by omega))
  set p := lowestSetBitsAux 32 sb m with hp
  have hple : p ≤ sb := lowestSetBits_le sb m
  have hpN : p < 2 ^ personCount := lt_of_le_of_lt hple hsb
  refine ⟨(2 ^ personCount - 1) ^^^ p, ?_, ?_⟩
  · exact Nat.xor_lt_two_pow (by omega) hpN
  · have hand : jsAndNot sb ((2 ^ personCount - 1) ^^^ p) = p := by
      unfold jsAndNot
      have haN : (2 ^ personCount - 1) ^^^ p < 2 ^ personCount :=
        Nat.xor_lt_two_pow (by omega) hpN
      have ha32 : (2 ^ personCount - 1) ^^^ p < 2 ^ 32 :=
        lt_of_lt_of_le haN (Nat.pow_le_pow_right (by norm_num) (by omega))
      rw [Nat.mod_eq_of_lt hsb32, Nat.mod_eq_of_lt ha32]
      apply Nat.eq_of_testBit_eq
      intro i
      have hmask : (0xFFFFFFFF : Nat) = 2 ^ 32 - 1 := by norm_num
      rw [Nat.testBit_and, Nat.testBit_xor, Nat.testBit_xor,
        hmask, Nat.testBit_two_pow_sub_one, Nat.testBit_two_pow_sub_one]
      by_cases hiN : i < personCount
      · have hi32 : i < 32 := by omega
        rcases htp : p.testBit i
        · simp [hiN, hi32, htp]
        · simp [hiN, hi32, htp, lowestSetBitsAux_testBit 32 sb m i htp]
      · have hsbf : sb.testBit i = false :=
          Nat.testBit_eq_false_of_lt
            (lt_of_lt_of_le hsb (Nat.pow_le_pow_right (by norm_num) (by omega)))
        have hpf : p.testBit i = false :=
          Nat.testBit_eq_false_of_lt
            (lt_of_lt_of_le hpN (Nat.pow_le_pow_right (by norm_num) (by omega)))
        simp [hsbf, hpf]
    rw [hand]
    have hplt32 : p < 2 ^ 32 := lt_of_lt_of_le hpN
      (Nat.pow_le_pow_right (by norm_num) (by omega))
    rw [popcount_eq_naivePopcount p hplt32]
    have hm' : m ≤ bitCountAux 32 sb := by
      rw [← naivePopcount, ← popcount_eq_naivePopcount sb hsb32]
      exact hm
    exact lowestSetBitsAux_count 32 sb m hm'

/-- C10: every statement `TypeCountStatement.random` produces is neither a
tautology nor unsatisfiable: the subject set has popcount at least 2, the
liar-count mask includes and excludes at least one count in
`{0..popcount subjectBits}`, every such count is realized by an assignment in
`[0, 2^personCount)`, and hence some assignment makes the statement true and
some makes it false. -/
theorem C10_typeCount_nondegenerate (context : LogicalStatementContext) (fuel : Nat)
    (o : List Nat) (s : LogicalStatement) (o' : List Nat)
    (hN : 2 ≤ context.personCount) (hN30 : context.personCount ≤ 30)
    (h : TypeCountStatement.random context fuel o = some (s, o')) :
    ∃ subjectBits liarCountBits,
      s = LogicalStatement.typeCount context subjectBits liarCountBits ∧
      2 ≤ popcount subjectBits ∧
      (∃ i, i ≤ popcount subjectBits ∧ liarCountBits.testBit i = true) ∧
      (∃ i, i ≤ popcount subjectBits ∧ liarCountBits.testBit i = false) ∧
      (∀ m, m ≤ popcount subjectBits →
        ∃ a, a < 2 ^ context.personCount ∧ popcount (jsAndNot subjectBits a) = m) ∧
      (∃ a, a < 2 ^ context.personCount ∧ s.isTrueOn a = true) ∧
      (∃ a, a < 2 ^ context.personCount ∧ s.isTrueOn a = false) := by
  obtain ⟨sb, lcb, rfl, hsbN, hpc2, hlcb1, hlcb2⟩ := typeCountRandom_spec context fuel o s o' h
  have hpow2 : (2 : Nat) ≤ 2 ^ (popcount sb + 1) := by
    calc (2 : Nat) = 2 ^ 1 := by norm_num
    _ ≤ 2 ^ (popcount sb + 1) := Nat.pow_le_pow_right (by norm_num) (by omega)
  have hlcblt : lcb < 2 ^ (popcount sb + 1) := by omega
  have hinc : ∃ i, i ≤ popcount sb ∧ lcb.testBit i = true := by
    by_contra hno
    push_neg at hno
    have hz : lcb = 0 := by
      apply Nat.zero_of_testBit_eq_false
      intro i
      by_cases hi : i ≤ popcount sb
      · rcases hb : lcb.testBit i
        · rfl
        · exact absurd hb (by simpa using hno i hi)
      · exact Nat.testBit_eq_false_of_lt
          (lt_of_lt_of_le hlcblt (Nat.pow_le_pow_right (by norm_num) (by omega)))
    omega
  have hexc : ∃ i, i ≤ popcount sb ∧ lcb.testBit i = false := by
    by_contra hno
    push_neg at hno
    have hall : lcb = 2 ^ (popcount sb + 1) - 1 := by
      apply Nat.eq_of_testBit_eq
      intro i
      rw [Nat.testBit_two_pow_sub_one]
      by_cases hi : i ≤ popcount sb
      · rcases hb : lcb.testBit i
        · exact absurd hb (by simpa using hno i hi)
        · simp [show i < popcount sb + 1 by omega]
      · have : lcb.testBit i = false := Nat.testBit_eq_false_of_lt
          (lt_of_lt_of_le hlcblt (Nat.pow_le_pow_right (by norm_num) (by omega)))
        rw [this]
        simp [show ¬ i < popcount sb + 1 by omega]
    omega
  refine ⟨sb, lcb, rfl, hpc2, hinc, hexc,
    liarCount_realizable context.personCount sb hsbN hN30, ?_, ?_⟩
  · obtain ⟨i, hi, hbit⟩ := hinc
    obtain ⟨a, ha, hcount⟩ := liarCount_realizable context.personCount sb hsbN hN30 i hi
    refine ⟨a, ha, ?_⟩
    show ((lcb >>> popcount (jsAndNot sb a)) &&& 1 != 0) = true
    rw [speakerBit_eq_testBit, hcount, hbit]
  · obtain ⟨i, hi, hbit⟩ := hexc
    obtain ⟨a, ha, hcount⟩ := liarCount_realizable context.personCount sb hsbN hN30 i hi
    refine ⟨a, ha, ?_⟩
    show ((lcb >>> popcount (jsAndNot sb a)) &&& 1 != 0) = false
    rw [speakerBit_eq_testBit, hcount, hbit]

/-- Witness for C10 on a concrete `TypeCountStatement.random` run. -/
theorem C10_witness :
    ∃ subjectBits liarCountBits,
      LogicalStatement.typeCount sampleContext 3 1
          = LogicalStatement.typeCount sampleContext subjectBits liarCountBits ∧
      2 ≤ popcount subjectBits ∧
      (∃ i, i ≤ popcount subjectBits ∧ liarCountBits.testBit i = true) ∧
      (∃ i, i ≤ popcount subjectBits ∧ liarCountBits.testBit i = false) ∧
      (∀ m, m ≤ popcount subjectBits →
        ∃ a, a < 2 ^ sampleContext.personCount ∧ popcount (jsAndNot subjectBits a) = m) ∧
      (∃ a, a < 2 ^ sampleContext.personCount ∧
        (LogicalStatement.typeCount sampleContext 3 1).isTrueOn a = true) ∧
      (∃ a, a < 2 ^ sampleContext.personCount ∧
        (LogicalStatement.typeCount sampleContext 3 1).isTrueOn a = false) :=
  C10_typeCount_nondegenerate sampleContext 3 [3, 0]
    (LogicalStatement.typeCount sampleContext 3 1) [] (by norm_num [sampleContext])
    (by norm_num [sampleContext]) rfl

/-! ## Claim C5: the assembler loop -/

/-- C5: whenever the regeneration loop terminates it presents a puzzle with
exactly one solution whose total rendered length lies inside the band (and
the sentence list stays the rendering of the statement list); and every
non-accepting iteration replaces exactly one statement, at the drawn speaker
index (in range whenever there is at least one speaker), leaving every other
position untouched, before re-solving on the updated list. -/
theorem C5_assembler_loop (minLen : ℚ) (maxLen : WithTop ℚ)
    (statementContexts : List LogicalStatementContext) (genFuel : Nat) :
    (∀ fuel statements sentences o out,
      sentences = statements.map LogicalStatement.sentence →
      assemblerLoop minLen maxLen statementContexts genFuel fuel statements sentences o
        = some out →
      (solutionsTo out.1).length = 1 ∧
      out.2 = out.1.map LogicalStatement.sentence ∧
      minLen ≤ (sumOfSentenceLengths out.2 : ℚ) ∧
      ((sumOfSentenceLengths out.2 : ℚ) : WithTop ℚ) ≤ maxLen) ∧
    (∀ fuel statements sentences o out,
      statementContexts ≠ [] →
      ¬ assemblerAccepts minLen maxLen statements sentences →
      assemblerLoop minLen maxLen statementContexts genFuel (fuel + 1) statements sentences o
        = some out →
      ∃ i s' o'', i = o.headD 0 % statementContexts.length ∧
        i < statementContexts.length ∧
        LogicalStatementGenerator.randomStatement genFuel
          (statementContexts.getD i default) ⊤ o.tail = some (Except.ok (s', o'')) ∧
        assemblerLoop minLen maxLen statementContexts genFuel fuel
          (statements.set i s') (sentences.set i s'.sentence) o'' = some out ∧
        (statements.set i s').length = statements.length ∧
        (∀ j, j ≠ i → (statements.set i s')[j]? = statements[j]?)) := by
  constructor
  · intro fuel
    induction fuel with
    | zero => intro statements sentences o out hsync h; simp [assemblerLoop] at h
    | succ fuel ih =>
      intro statements sentences o out hsync h
      rw [assemblerLoop] at h
      by_cases hacc : assemblerAccepts minLen maxLen statements sentences
      · rw [if_pos hacc] at h
        simp only [Option.some.injEq] at h
        subst h
        obtain ⟨h1, h2, h3⟩ := hacc
        exact ⟨h1, hsync, h2, h3⟩
      · rw [if_neg hacc] at h
        simp only [randBelow] at h
        rcases hg : genRun genFuel (GenCall.gen ⊤)
            (statementContexts.getD (o.headD 0 % statementContexts.length) default) o.tail
          with _ | e | sp
        · rw [hg] at h
          simp at h
        · rw [hg] at h
          simp at h
        · rw [hg] at h
          refine ih _ _ _ _ ?_ h
          rw [hsync, List.map_set]
  · intro fuel statements sentences o out hne hacc h
    rw [assemblerLoop, if_neg hacc] at h
    simp only [randBelow] at h
    rcases hg : genRun genFuel (GenCall.gen ⊤)
        (statementContexts.getD (o.headD 0 % statementContexts.length) default) o.tail
      with _ | e | sp
    · rw [hg] at h
      simp at h
    · rw [hg] at h
      simp at h
    · rw [hg] at h
      refine ⟨o.headD 0 % statementContexts.length, sp.1, sp.2, rfl,
        Nat.mod_lt _ (List.length_pos.mpr hne), hg, h, List.length_set _ _ _,
        fun j hj => List.getElem?_set_ne (fun hij => hj hij.symm)⟩

/-- Speaker contexts of the two-person witness puzzle (`script.js` builds one
root context per speaker). -/
def witnessContexts : List LogicalStatementContext :=
  [⟨2, 0, true, false, none, 1⟩, ⟨2, 1, true, false, none, 1⟩]

/-- The accepted witness puzzle: `A` says "exactly one of the two of us is a
liar", `B` says "A is a truth-teller"; its unique solution is assignment 0. -/
def witnessStatements : List LogicalStatement :=
  [LogicalStatement.typeCount ⟨2, 0, true, false, none, 1⟩ 3 2,
   LogicalStatement.trueFalse ⟨2, 1, true, false, none, 1⟩ 0 true]

/-- A non-accepted starting point: `B` instead says "I am a truth-teller",
leaving two consistent assignments. -/
def witnessStatements0 : List LogicalStatement :=
  [LogicalStatement.typeCount ⟨2, 0, true, false, none, 1⟩ 3 2,
   LogicalStatement.trueFalse ⟨2, 1, true, false, none, 1⟩ 1 true]

/-- Witness for C5: the break conditions hold on a concrete accepted run, and
a concrete non-accepting iteration replaces exactly the drawn speaker's
statement before re-solving. -/
theorem C5_witness :
    ((solutionsTo (witnessStatements, witnessStatements.map LogicalStatement.sentence).1).length
        = 1 ∧
      (witnessStatements, witnessStatements.map LogicalStatement.sentence).2
        = (witnessStatements,
            witnessStatements.map LogicalStatement.sentence).1.map LogicalStatement.sentence ∧
      (0 : ℚ) ≤ (sumOfSentenceLengths
        (witnessStatements, witnessStatements.map LogicalStatement.sentence).2 : ℚ) ∧
      ((sumOfSentenceLengths
        (witnessStatements, witnessStatements.map LogicalStatement.sentence).2 : ℚ) :
          WithTop ℚ) ≤ ⊤) ∧
    (∃ i s' o'', i = [1, 0, 0, 0].headD 0 % witnessContexts.length ∧
      i < witnessContexts.length ∧
      LogicalStatementGenerator.randomStatement 1
        (witnessContexts.getD i default) ⊤ [0, 0, 0] = some (Except.ok (s', o'')) ∧
      assemblerLoop 0 ⊤ witnessContexts 1 1
        (witnessStatements0.set i s')
        ((witnessStatements0.map LogicalStatement.sentence).set i s'.sentence) o''
        = some (witnessStatements, witnessStatements.map LogicalStatement.sentence) ∧
      (witnessStatements0.set i s').length = witnessStatements0.length ∧
      (∀ j, j ≠ i → (witnessStatements0.set i s')[j]? = witnessStatements0[j]?)) :=
  ⟨(C5_assembler_loop 0 ⊤ witnessContexts 1).1 1 witnessStatements
      (witnessStatements.map LogicalStatement.sentence) []
      (witnessStatements, witnessStatements.map LogicalStatement.sentence) rfl rfl,
   (C5_assembler_loop 0 ⊤ witnessContexts 1).2 1 witnessStatements0
      (witnessStatements0.map LogicalStatement.sentence) [1, 0, 0, 0]
      (witnessStatements, witnessStatements.map LogicalStatement.sentence)
      (by simp [witnessContexts]) (by decide) rfl⟩

/-- Witness for C2 at a concrete count assertion and assignment. -/
theorem C2_witness :
    ((LogicalStatement.typeCount sampleContext 3 2).isTrueOn 0 = true ↔
      Nat.testBit 2 (popcount (jsAndNot 3 0)) = true) :=
  C2_typeCount_isTrueOn sampleContext 3 2 0

/-- Witness for C3 on the concrete witness puzzle at assignment 0. -/
theorem C3_witness :
    (0 ∈ solutionsTo witnessStatements ↔
      (0 < 2 ^ witnessStatements.length ∧
        ∀ i (h : i < witnessStatements.length),
          (witnessStatements.get ⟨i, h⟩).isTrueOn 0
            = Nat.testBit 0 (witnessStatements.get ⟨i, h⟩).context.speakerIndex)) :=
  C3_solutionsTo_correct witnessStatements 0
